import Mathlib

/-!
Verification development for the `vps-netlink` daemon.

The reconciliation core lives in `src/diff.rs` (`make_diff`, `apply_diff`),
the collector in `src/netlink.rs` and the configuration data model in
`src/config.rs`.  This file gives a shallow embedding of those functions and
proves the specified properties about them.

Modelling conventions:
* Machine integers (`u8`, `u16`, `u32`, `usize`) are `Nat`; the only place
  where overflow is observable in the source is `usize::from_str_radix`,
  whose failure on values ≥ 2^64 is modelled explicitly.
* IPv4/IPv6 addresses are their numeric values wrapped in `IpAddr`.
* The opaque netlink removal handles (`AddressMessage`, `RouteMessage`) are
  type parameters `A`, `R` of the state/diff types; the reconciler only
  stores, compares and replays them, which is all the embedding needs.
* Fallible kernel interaction is a `List`-backed environment plus `Except`.
-/

set_option linter.unusedSectionVars false

namespace Vps

variable {A R : Type} [DecidableEq A] [DecidableEq R]

/-- IP addresses: the numeric value of an `Ipv4Addr` or `Ipv6Addr`. -/
inductive IpAddr where
  | v4 (a : Nat)
  | v6 (a : Nat)
deriving DecidableEq

/-- `config::V4Ip`: one public IPv4 address or a list of them. -/
inductive V4Ip where
  | One (ip : Nat)
  | Many (ips : List Nat)
deriving DecidableEq

/-- `V4Ip::as_many`: normalise to a list. -/
def V4Ip.as_many : V4Ip → List Nat
  | .One ip => [ip]
  | .Many ips => ips

/-- `config::VPS`: one tenant specification.  `v6_pfx` is the source field
`v6_prefix` (renamed). -/
structure VPS where
  vlan : Nat
  v4_addr : Nat
  v4_public : Option V4Ip
  v6_pfx : Nat
deriving DecidableEq

/-- `netlink::Interface`. -/
structure Interface where
  name : String
  index : Nat
  link : Nat
  vlan : Nat
deriving DecidableEq

/-- `netlink::Address`; `A` is the opaque `AddressMessage` handle type. -/
structure Address (A : Type) where
  interface : Nat
  address : IpAddr
  prefix_length : Nat
  message : A
deriving DecidableEq

/-- `netlink::Route`; `R` is the opaque `RouteMessage` handle type. -/
structure Route (R : Type) where
  destination : IpAddr
  destination_prefix_length : Nat
  interface : Nat
  message : R
deriving DecidableEq

/-- `netlink::State`: the collected snapshot. -/
structure State (A R : Type) where
  interfaces : List Interface
  addresses : List (Address A)
  routes : List (Route R)
deriving DecidableEq

/-- `diff::AddAddress`. -/
structure AddAddressOp where
  address : IpAddr
  prefix_length : Nat
  interface_name : String
deriving DecidableEq

/-- `diff::AddRoute`. -/
structure AddRouteOp where
  destination : IpAddr
  destination_prefix_length : Nat
  interface_name : String
deriving DecidableEq

/-- `diff::Diff`: one reconciliation operation. -/
inductive Diff (A R : Type) where
  | AddInterface (i : Interface)
  | RemoveInterface (idx : Nat)
  | AddAddress (a : AddAddressOp)
  | RemoveAddress (m : A)
  | AddRoute (r : AddRouteOp)
  | RemoveRoute (m : R)
deriving DecidableEq

/-- `diff::InterfaceState`: the per-tenant interface-name assignment. -/
structure InterfaceState where
  name : String
  vps : VPS
deriving DecidableEq

/-- The error type of `main.rs` (payloads of the transport variants elided). -/
inductive Error where
  | NetlinkError
  | Io
  | InterfaceNotFound (name : String)
deriving DecidableEq

/-- `netlink::interface_name_to_index`: the kernel link table is modelled as
an association list of `(name, index)`; the query returns the first link with
exactly the requested name, else `InterfaceNotFound`. -/
def interface_name_to_index (links : List (String × Nat)) (name : String) :
    Except Error Nat :=
  match links.find? (fun l => decide (l.1 = name)) with
  | some l => .ok l.2
  | none => .error (.InterfaceNotFound name)

/-- `usize::from_str_radix(s, 10)` on a character list: an optional leading
`+`, then at least one decimal digit, value below `2^64` (usize overflow
errors in the source and is mapped to `none` here). -/
def digitsVal : List Char → Nat → Option Nat
  | [], acc => some acc
  | c :: rest, acc =>
      if c.isDigit then digitsVal rest (acc * 10 + (c.toNat - 48)) else none

/-- See `digitsVal`; this is the whole `from_str_radix` behaviour. -/
def from_str_radix_10 (cs : List Char) : Option Nat :=
  let cs' := match cs with
    | '+' :: rest => rest
    | cs => cs
  match cs' with
  | [] => none
  | _ =>
    match digitsVal cs' 0 with
    | none => none
    | some v => if v < 2 ^ 64 then some v else none

/-- `usize::from_str_radix(&name[3..], 10).unwrap_or(0)`: the numeric suffix
of an interface name (0 when unparsable).  The source byte-slices off the
first three bytes; collected names start with the ASCII `"vps"`, so dropping
three characters is the same operation. -/
def name_suffix_num (name : String) : Nat :=
  (from_str_radix_10 (name.data.drop 3)).getD 0

/-- `format!("vps{}", id)`. -/
def vpsName (id : Nat) : String :=
  "vps" ++ toString id

/-- The allocation base of one tick:
`state.interfaces.iter().map(parse).max().unwrap_or(0) + 1`. -/
def next_id_base (interfaces : List Interface) : Nat :=
  (interfaces.map (fun i => name_suffix_num i.name)).foldl Nat.max 0 + 1

/-- The mutable locals of `make_diff`, threaded through the per-tenant loop. -/
structure Acc (A R : Type) where
  keep_interfaces : List Nat
  keep_routes : List R
  rem_addresses : List A
  diff_add : List (Diff A R)
  interface_states : List InterfaceState
  next_interface_id : Nat

/-- The address loop of the matched branch (`diff.rs:59-72`): scans the
addresses of the kept interface, accumulating `found_v4_addr` and the
removal queue. -/
def addrStep (v : VPS) (p : Bool × List A) (a : Address A) : Bool × List A :=
  match a.address with
  | .v4 dest =>
      if v.v4_addr = dest ∧ a.prefix_length = 31 then (true, p.2)
      else (p.1, p.2 ++ [a.message])
  | .v6 _ => p

/-- The route loop of the matched branch (`diff.rs:82-103`): accumulates
`keep_routes` additions, the matched public v4 destinations and `found_v6`. -/
def routeStep (v : VPS) (p : List R × List Nat × Bool) (r : Route R) :
    List R × List Nat × Bool :=
  match r.destination with
  | .v4 dest =>
      match v.v4_public with
      | some public_v4 =>
          if dest ∈ public_v4.as_many ∧ r.destination_prefix_length = 32 then
            (p.1 ++ [r.message], p.2.1 ++ [dest], p.2.2)
          else p
      | none => p
  | .v6 dest =>
      if v.v6_pfx = dest ∧ r.destination_prefix_length = 64 then
        (p.1 ++ [r.message], p.2.1, true)
      else p

/-- `state.interfaces.iter().find(|i| i.vlan == vps.vlan)`. -/
def findInf (s : State A R) (v : VPS) : Option Interface :=
  s.interfaces.find? (fun i => decide (i.vlan = v.vlan))

/-- The `Add*` operations queued for a matched tenant (`diff.rs:74-121`),
given the results of the two loops. -/
def matchedAdds (v : VPS) (i : Interface) (found_v4_addr : Bool)
    (found_v4 : List Nat) (found_v6 : Bool) : List (Diff A R) :=
  (if found_v4_addr then [] else
    [Diff.AddAddress ⟨.v4 v.v4_addr, 31, i.name⟩])
  ++ (match v.v4_public with
      | some public_v4 =>
          (public_v4.as_many.filter (fun p => decide (p ∉ found_v4))).map
            (fun p => Diff.AddRoute ⟨.v4 p, 32, i.name⟩)
      | none => [])
  ++ (if found_v6 then [] else
    [Diff.AddRoute ⟨.v6 v.v6_pfx, 64, i.name⟩])

/-- The operations queued for an unmatched tenant (`diff.rs:123-158`). -/
def newAdds (link_interface : Nat) (v : VPS) (name : String) :
    List (Diff A R) :=
  [Diff.AddInterface ⟨name, 0, link_interface, v.vlan⟩,
   Diff.AddAddress ⟨.v4 v.v4_addr, 31, name⟩]
  ++ (match v.v4_public with
      | some public_v4 =>
          public_v4.as_many.map (fun p => Diff.AddRoute ⟨.v4 p, 32, name⟩)
      | none => [])
  ++ [Diff.AddRoute ⟨.v6 v.v6_pfx, 64, name⟩]

/-- One iteration of the `for vps in target` loop of `make_diff`. -/
def step (s : State A R) (link_interface : Nat) (acc : Acc A R) (v : VPS) :
    Acc A R :=
  match findInf s v with
  | some i =>
      let p := (s.addresses.filter (fun a => decide (a.interface = i.index))
        ).foldl (addrStep v) (false, [])
      let q := (s.routes.filter (fun r => decide (r.interface = i.index))
        ).foldl (routeStep v) ([], [], false)
      { acc with
        keep_interfaces := acc.keep_interfaces ++ [i.index],
        keep_routes := acc.keep_routes ++ q.1,
        rem_addresses := acc.rem_addresses ++ p.2,
        diff_add := acc.diff_add ++ matchedAdds v i p.1 q.2.1 q.2.2,
        interface_states := acc.interface_states ++ [⟨i.name, v⟩] }
  | none =>
      let name := vpsName acc.next_interface_id
      { acc with
        diff_add := acc.diff_add ++ newAdds link_interface v name,
        interface_states := acc.interface_states ++ [⟨name, v⟩],
        next_interface_id := acc.next_interface_id + 1 }

/-- The loop of `make_diff` over all tenants, from the initial locals. -/
def runSpecs (s : State A R) (link_interface : Nat) (target : List VPS) :
    Acc A R :=
  target.foldl (step s link_interface)
    ⟨[], [], [], [], [], next_id_base s.interfaces⟩

/-- The interfaces queued for removal (`diff.rs:162-169`), as indices. -/
def remInterfaces (s : State A R) (keep : List Nat) : List Nat :=
  (s.interfaces.filter (fun i => decide (i.index ∉ keep))).map
    (fun i => i.index)

/-- `make_diff` after the parent-link resolution: everything from
`diff.rs:37-182` except the `interface_name_to_index` call. -/
def make_diff_core (link_interface : Nat) (target : List VPS)
    (s : State A R) : List (Diff A R) × List InterfaceState :=
  let acc := runSpecs s link_interface target
  let rem := remInterfaces s acc.keep_interfaces
  let diffRI := rem.map (fun idx => Diff.RemoveInterface (A := A) idx)
  let diffRR := (s.routes.filter (fun r =>
      decide (r.message ∉ acc.keep_routes ∧ r.interface ∉ rem))).map
    (fun r => Diff.RemoveRoute (A := A) r.message)
  let diffRA := acc.rem_addresses.map (fun m => Diff.RemoveAddress (R := R) m)
  (diffRI ++ diffRR ++ diffRA ++ acc.diff_add, acc.interface_states)

/-- `diff::make_diff`: resolves the parent link, then runs the pure diff. -/
def make_diff (links : List (String × Nat)) (root_interface : String)
    (target : List VPS) (s : State A R) :
    Except Error (List (Diff A R) × List InterfaceState) :=
  match interface_name_to_index links root_interface with
  | .error e => .error e
  | .ok link_interface => .ok (make_diff_core link_interface target s)

/-! ## The applier (`diff::apply_diff`)

The kernel side of each operation is abstracted as a `Handle`: a record of
fallible primitives over an abstract kernel state `σ`, mirroring the
`rtnetlink::Handle` methods used by `apply_diff`.  `apply_diff` itself
executes the operations strictly in order, propagating the first error. -/

structure Handle (σ A R : Type) where
  link_add : σ → String → Nat → Nat → Except Error σ
  link_del : σ → Nat → Except Error σ
  address_add : σ → Nat → IpAddr → Nat → Except Error σ
  address_del : σ → A → Except Error σ
  route_add : σ → Nat → Nat → IpAddr → Nat → Except Error σ
  route_del : σ → R → Except Error σ
  name_to_index : σ → String → Except Error Nat

/-- One arm of the `match command` in `apply_diff` (`diff.rs:187-230`). -/
def exec_diff (h : Handle σ A R) (route_proto : Nat) (s : σ) :
    Diff A R → Except Error σ
  | .AddInterface i => h.link_add s i.name i.link i.vlan
  | .RemoveInterface i => h.link_del s i
  | .AddAddress a =>
      match h.name_to_index s a.interface_name with
      | .error e => .error e
      | .ok interface => h.address_add s interface a.address a.prefix_length
  | .RemoveAddress a => h.address_del s a
  | .AddRoute r =>
      match h.name_to_index s r.interface_name with
      | .error e => .error e
      | .ok interface =>
          h.route_add s route_proto interface r.destination
            r.destination_prefix_length
  | .RemoveRoute m => h.route_del s m

/-- `diff::apply_diff`: sequential execution, aborting on the first error. -/
def apply_diff (h : Handle σ A R) (route_proto : Nat) (s : σ) :
    List (Diff A R) → Except Error σ
  | [] => .ok s
  | command :: rest =>
      match exec_diff h route_proto s command with
      | .error e => .error e
      | .ok s' => apply_diff h route_proto s' rest

/-! ## The model-level kernel

For stating convergence the effect of an operation list on a snapshot is
modelled directly: interface removal cascades (the kernel drops the
addresses and routes of a deleted link), additions append entries whose
removal handles mirror their content (a netlink message contains exactly the
fields the collector later reads back out of it, plus irrelevant extras). -/

/-- Model `AddressMessage`: the handle determines the fields the collector
extracts, plus an opaque remainder. -/
structure MAddr where
  interface : Nat
  address : IpAddr
  prefix_length : Nat
  extra : Nat
deriving DecidableEq

/-- Model `RouteMessage`. -/
structure MRoute where
  interface : Nat
  destination : IpAddr
  destination_prefix_length : Nat
  extra : Nat
deriving DecidableEq

/-- The model snapshot type. -/
abbrev MState := State MAddr MRoute

/-- A kernel index unused by anything in the snapshot. -/
def freshIndex (s : MState) : Nat :=
  ((s.interfaces.map (fun i => i.index) ++ s.addresses.map (fun a => a.interface))
    ++ s.routes.map (fun r => r.interface)).foldl Nat.max 0 + 1

/-- An `extra` value unused by any handle in the snapshot. -/
def freshExtra (s : MState) : Nat :=
  (s.addresses.map (fun a => a.message.extra)
    ++ s.routes.map (fun r => r.message.extra)).foldl Nat.max 0 + 1

/-- Kernel name resolution against the snapshot (first link with the name). -/
def resolveName (s : MState) (name : String) : Option Nat :=
  (s.interfaces.find? (fun i => decide (i.name = name))).map (fun i => i.index)

/-- The model-level effect of one operation on a snapshot. -/
def applyOp (s : MState) : Diff MAddr MRoute → MState
  | .AddInterface i =>
      { s with interfaces := s.interfaces ++ [{ i with index := freshIndex s }] }
  | .RemoveInterface idx =>
      { interfaces := s.interfaces.filter (fun i => decide (i.index ≠ idx)),
        addresses := s.addresses.filter (fun a => decide (a.interface ≠ idx)),
        routes := s.routes.filter (fun r => decide (r.interface ≠ idx)) }
  | .AddAddress a =>
      match resolveName s a.interface_name with
      | some idx =>
          { s with addresses := s.addresses ++
              [⟨idx, a.address, a.prefix_length,
                ⟨idx, a.address, a.prefix_length, freshExtra s⟩⟩] }
      | none => s
  | .RemoveAddress m =>
      { s with addresses := s.addresses.filter (fun a => decide (a.message ≠ m)) }
  | .AddRoute r =>
      match resolveName s r.interface_name with
      | some idx =>
          { s with routes := s.routes ++
              [⟨r.destination, r.destination_prefix_length, idx,
                ⟨idx, r.destination, r.destination_prefix_length,
                  freshExtra s⟩⟩] }
      | none => s
  | .RemoveRoute m =>
      { s with routes := s.routes.filter (fun r => decide (r.message ≠ m)) }

/-- The model-level application of a whole operation list. -/
def applyOnModel (s : MState) (ops : List (Diff MAddr MRoute)) : MState :=
  ops.foldl applyOp s

/-- What the collector guarantees about a snapshot it returns (kernel facts:
link names are unique, at most 15 bytes long, kernel indices are unique,
collected names carry the `vps` naming convention, and a netlink removal
handle embeds the very fields the collector extracted from it). -/
structure Collected (s : MState) : Prop where
  names_vps : ∀ i ∈ s.interfaces, i.name.data.take 3 = ['v', 'p', 's']
  names_short : ∀ i ∈ s.interfaces, i.name.length ≤ 15
  names_nodup : (s.interfaces.map (fun i => i.name)).Nodup
  idx_nodup : (s.interfaces.map (fun i => i.index)).Nodup
  addr_mirror : ∀ a ∈ s.addresses,
    a.message.interface = a.interface ∧ a.message.address = a.address ∧
      a.message.prefix_length = a.prefix_length
  route_mirror : ∀ r ∈ s.routes,
    r.message.interface = r.interface ∧ r.message.destination = r.destination ∧
      r.message.destination_prefix_length = r.destination_prefix_length

/-! ## The collector (`netlink.rs`)

The raw netlink messages are modelled as inductive types carrying exactly
the attributes the collector inspects, plus catch-all constructors for
everything it ignores.  The kernel query streams become input lists. -/

inductive InfoKind where
  | vlanKind
  | otherKind
deriving DecidableEq

inductive VlanInfo where
  | id (v : Nat)
  | otherVlan
deriving DecidableEq

inductive LinkInfo where
  | kind (k : InfoKind)
  | data (d : List VlanInfo)
  | otherInfo
deriving DecidableEq

inductive LinkNla where
  | info (infos : List LinkInfo)
  | ifName (name : String)
  | link (l : Nat)
  | otherNla
deriving DecidableEq

/-- A raw `LinkMessage`. -/
structure RawLink where
  index : Nat
  nlas : List LinkNla
deriving DecidableEq

def RT_SCOPE_UNIVERSE : Nat := 0
def AF_INET : Nat := 2
def AF_INET6 : Nat := 10

inductive AddrNla where
  | address (d : List Nat)
  | otherAddr
deriving DecidableEq

/-- A raw `AddressMessage` (header fields flattened, ignored bits in
`extra`). -/
structure RawAddr where
  index : Nat
  scope : Nat
  prefix_len : Nat
  family : Nat
  nlas : List AddrNla
  extra : Nat
deriving DecidableEq

inductive RouteNla where
  | oif (i : Nat)
  | destination (d : List Nat)
  | otherRoute
deriving DecidableEq

/-- A raw `RouteMessage`. -/
structure RawRoute where
  destination_prefix_length : Nat
  protocol : Nat
  address_family : Nat
  nlas : List RouteNla
  extra : Nat
deriving DecidableEq

/-- Big-endian byte-array value, as produced by `Ipv4Addr::from([u8;4])` and
`Ipv6Addr::from([u8;16])`.  The source `try_into().unwrap()` asserts the
length; kernel messages are well formed, so the fold is total here. -/
def bytesToNat (d : List Nat) : Nat :=
  d.foldl (fun a b => a * 256 + b) 0

/-- Does the message carry `Info(... Kind(Vlan) ...)`? (`netlink.rs:42-47`) -/
def is_vlan_link (m : RawLink) : Bool :=
  m.nlas.any fun nla =>
    match nla with
    | .info infos =>
        infos.any fun i =>
          match i with
          | .kind .vlanKind => true
          | _ => false
    | _ => false

/-- Does the message carry an `IfName` starting with `"vps"`?
(`netlink.rs:48-55`; the inner scan revisits all nlas of the message.) -/
def has_vps_name (m : RawLink) : Bool :=
  m.nlas.any fun nla =>
    match nla with
    | .ifName name => "vps".isPrefixOf name
    | _ => false

/-- The extraction loop of `get_vlan_interfaces` (`netlink.rs:62-98`). -/
def extract_interface (m : RawLink) : Interface :=
  m.nlas.foldl
    (fun inf nla =>
      match nla with
      | .info infos =>
          infos.foldl
            (fun inf info =>
              match info with
              | .data d =>
                  d.foldl
                    (fun inf datum =>
                      match datum with
                      | .id vlan => { inf with vlan := vlan }
                      | .otherVlan => inf)
                    inf
              | _ => inf)
            inf
      | .link l => { inf with link := l }
      | .ifName name => { inf with name := name }
      | .otherNla => inf)
    ⟨"", m.index, 0, 0⟩

/-- `netlink::get_vlan_interfaces` over a list of raw link messages. -/
def get_vlan_interfaces (msgs : List RawLink) : List Interface :=
  (msgs.filter (fun m => is_vlan_link m && has_vps_name m)).map
    extract_interface

/-- The extraction loop of `get_addresses` (`netlink.rs:113-142`). -/
def extract_address (m : RawAddr) : Address RawAddr :=
  m.nlas.foldl
    (fun addr nla =>
      match nla with
      | .address d =>
          if m.family = AF_INET then
            { addr with address := .v4 (bytesToNat d) }
          else if m.family = AF_INET6 then
            { addr with address := .v6 (bytesToNat d) }
          else addr
      | .otherAddr => addr)
    ⟨m.index, .v4 0, m.prefix_len, m⟩

/-- `netlink::get_addresses`: keeps universe-scope addresses only. -/
def get_addresses (msgs : List RawAddr) : List (Address RawAddr) :=
  (msgs.filter (fun m => decide (m.scope = RT_SCOPE_UNIVERSE))).map
    extract_address

/-- The nla loop of `get_routes` (`netlink.rs:169-204`); `none` models
`continue 'outer` on an unclassifiable address family. -/
def route_from_nlas (fam : Nat) (r : Route RawRoute) :
    List RouteNla → Option (Route RawRoute)
  | [] => some r
  | nla :: rest =>
      match nla with
      | .oif i => route_from_nlas fam { r with interface := i } rest
      | .destination d =>
          if fam = AF_INET then
            route_from_nlas fam { r with destination := .v4 (bytesToNat d) } rest
          else if fam = AF_INET6 then
            route_from_nlas fam { r with destination := .v6 (bytesToNat d) } rest
          else none
      | .otherRoute => route_from_nlas fam r rest

/-- `netlink::get_routes`: the v4 and v6 query streams are filtered by the
managed protocol tag, then each message is decoded. -/
def get_routes (v4_msgs v6_msgs : List RawRoute) (route_proto : Nat) :
    List (Route RawRoute) :=
  let vps_routes := v4_msgs.filter (fun m => decide (m.protocol = route_proto))
    ++ v6_msgs.filter (fun m => decide (m.protocol = route_proto))
  vps_routes.filterMap fun m =>
    route_from_nlas m.address_family
      ⟨.v4 0, m.destination_prefix_length, 0, m⟩ m.nlas

/-- `netlink::get_state`. -/
def get_state (links : List RawLink) (addrs : List RawAddr)
    (v4_msgs v6_msgs : List RawRoute) (route_proto : Nat) :
    State RawAddr RawRoute :=
  ⟨get_vlan_interfaces links, get_addresses addrs,
    get_routes v4_msgs v6_msgs route_proto⟩

/-! ## Static characterisations of the per-tenant loop

The loop of `make_diff` threads mutable accumulators; the following
functions compute each accumulator directly, and the lemmas below show the
fold agrees with them. -/

/-- Does `a` satisfy the `/31` requirement of `v`? -/
def goodAddr (v : VPS) (a : Address A) : Bool :=
  decide (a.address = IpAddr.v4 v.v4_addr ∧ a.prefix_length = 31)

/-- The removal handle queued for `a` while processing `v`, if any. -/
def badMsg (v : VPS) (a : Address A) : Option A :=
  match a.address with
  | .v4 dest =>
      if v.v4_addr = dest ∧ a.prefix_length = 31 then none else some a.message
  | .v6 _ => none

/-- The handle retained for route `r` while processing `v`, if any. -/
def keptMsg (v : VPS) (r : Route R) : Option R :=
  match r.destination with
  | .v4 dest =>
      match v.v4_public with
      | some public_v4 =>
          if dest ∈ public_v4.as_many ∧ r.destination_prefix_length = 32 then
            some r.message
          else none
      | none => none
  | .v6 dest =>
      if v.v6_pfx = dest ∧ r.destination_prefix_length = 64 then some r.message
      else none

/-- The public v4 destination satisfied by route `r`, if any. -/
def destMatch (v : VPS) (r : Route R) : Option Nat :=
  match r.destination with
  | .v4 dest =>
      match v.v4_public with
      | some public_v4 =>
          if dest ∈ public_v4.as_many ∧ r.destination_prefix_length = 32 then
            some dest
          else none
      | none => none
  | .v6 _ => none

/-- Does route `r` satisfy the `/64` requirement of `v`? -/
def v6Match (v : VPS) (r : Route R) : Bool :=
  match r.destination with
  | .v6 dest => decide (v.v6_pfx = dest ∧ r.destination_prefix_length = 64)
  | .v4 _ => false

/-- The addresses of the snapshot on kernel index `idx`. -/
def addrsOn (s : State A R) (idx : Nat) : List (Address A) :=
  s.addresses.filter (fun a => decide (a.interface = idx))

/-- The routes of the snapshot on kernel index `idx`. -/
def routesOn (s : State A R) (idx : Nat) : List (Route R) :=
  s.routes.filter (fun r => decide (r.interface = idx))

theorem addr_foldl (v : VPS) (as : List (Address A)) :
    ∀ b L, as.foldl (addrStep v) (b, L) =
      (b || as.any (goodAddr v), L ++ as.filterMap (badMsg v)) := by
  induction as with
  | nil => simp
  | cons a as ih =>
      intro b L
      simp only [List.foldl_cons, List.any_cons, List.filterMap_cons]
      rcases ha : a.address with d | d
      · by_cases hg : v.v4_addr = d ∧ a.prefix_length = 31
        · rw [show addrStep v (b, L) a = (true, L) by
            simp [addrStep, ha, hg]]
          rw [ih]
          have hga : goodAddr v a = true := by
            simp [goodAddr, ha, hg.1.symm, hg.2]
          have hba : badMsg v a = none := by simp [badMsg, ha, hg]
          simp [hga, hba]
        · rw [show addrStep v (b, L) a = (b, L ++ [a.message]) by
            simp [addrStep, ha, hg]]
          rw [ih]
          have hga : goodAddr v a = false := by
            simp only [goodAddr, ha, decide_eq_false_iff_not]
            intro hc
            exact hg ⟨(IpAddr.v4.injEq _ _ ▸ hc.1).symm, hc.2⟩
          have hba : badMsg v a = some a.message := by simp [badMsg, ha, hg]
          simp [hga, hba]
      · rw [show addrStep v (b, L) a = (b, L) by simp [addrStep, ha]]
        rw [ih]
        have hga : goodAddr v a = false := by simp [goodAddr, ha]
        have hba : badMsg v a = none := by simp [badMsg, ha]
        simp [hga, hba]

theorem route_foldl (v : VPS) (rs : List (Route R)) :
    ∀ K F b, rs.foldl (routeStep v) (K, F, b) =
      (K ++ rs.filterMap (keptMsg v), F ++ rs.filterMap (destMatch v),
        b || rs.any (v6Match v)) := by
  induction rs with
  | nil => simp
  | cons r rs ih =>
      intro K F b
      simp only [List.foldl_cons, List.any_cons, List.filterMap_cons]
      rcases hr : r.destination with d | d
      · rcases hp : v.v4_public with _ | pv
        · rw [show routeStep v (K, F, b) r = (K, F, b) by
            simp [routeStep, hr, hp]]
          rw [ih]
          simp [keptMsg, destMatch, v6Match, hr, hp]
        · by_cases hm : d ∈ pv.as_many ∧ r.destination_prefix_length = 32
          · rw [show routeStep v (K, F, b) r = (K ++ [r.message], F ++ [d], b) by
              simp [routeStep, hr, hp, hm]]
            rw [ih]
            simp [keptMsg, destMatch, v6Match, hr, hp, hm]
          · rw [show routeStep v (K, F, b) r = (K, F, b) by
              simp [routeStep, hr, hp, hm]]
            rw [ih]
            simp [keptMsg, destMatch, v6Match, hr, hp, hm]
      · by_cases hm : v.v6_pfx = d ∧ r.destination_prefix_length = 64
        · rw [show routeStep v (K, F, b) r = (K ++ [r.message], F, true) by
            simp [routeStep, hr, hm]]
          rw [ih]
          simp [keptMsg, destMatch, v6Match, hr, hm]
        · rw [show routeStep v (K, F, b) r = (K, F, b) by
            simp [routeStep, hr, hm]]
          rw [ih]
          simp [keptMsg, destMatch, v6Match, hr, hm]

/-- The kept-interface indices contributed by a tenant list. -/
def keepIdxs (s : State A R) (T : List VPS) : List Nat :=
  T.filterMap (fun v => (findInf s v).map (fun i => i.index))

/-- The retained-route handles contributed by a tenant list. -/
def keepRts (s : State A R) (T : List VPS) : List R :=
  T.flatMap fun v =>
    match findInf s v with
    | some i => (routesOn s i.index).filterMap (keptMsg v)
    | none => []

/-- The queued address removals contributed by a tenant list. -/
def remAddrs (s : State A R) (T : List VPS) : List A :=
  T.flatMap fun v =>
    match findInf s v with
    | some i => (addrsOn s i.index).filterMap (badMsg v)
    | none => []

/-- How many tenants of the list have no matching interface. -/
def uCount (s : State A R) (T : List VPS) : Nat :=
  (T.filter (fun v => (findInf s v).isNone)).length

/-- The `Add*` queue contributed by a tenant list, starting allocation of
new names at `n`. -/
def diffAdds (s : State A R) (link_interface : Nat) :
    List VPS → Nat → List (Diff A R)
  | [], _ => []
  | v :: ts, n =>
      match findInf s v with
      | some i =>
          matchedAdds v i
            ((addrsOn s i.index).any (goodAddr v))
            ((routesOn s i.index).filterMap (destMatch v))
            ((routesOn s i.index).any (v6Match v))
          ++ diffAdds s link_interface ts n
      | none => newAdds link_interface v (vpsName n)
          ++ diffAdds s link_interface ts (n + 1)

/-- The interface-name assignments of a tenant list. -/
def assigns (s : State A R) : List VPS → Nat → List InterfaceState
  | [], _ => []
  | v :: ts, n =>
      match findInf s v with
      | some i => ⟨i.name, v⟩ :: assigns s ts n
      | none => ⟨vpsName n, v⟩ :: assigns s ts (n + 1)

theorem step_matched (s : State A R) (ℓ : Nat) (acc : Acc A R) (v : VPS)
    (i : Interface) (h : findInf s v = some i) :
    step s ℓ acc v =
      { keep_interfaces := acc.keep_interfaces ++ [i.index],
        keep_routes := acc.keep_routes ++ (routesOn s i.index).filterMap (keptMsg v),
        rem_addresses := acc.rem_addresses ++ (addrsOn s i.index).filterMap (badMsg v),
        diff_add := acc.diff_add ++
          matchedAdds v i ((addrsOn s i.index).any (goodAddr v))
            ((routesOn s i.index).filterMap (destMatch v))
            ((routesOn s i.index).any (v6Match v)),
        interface_states := acc.interface_states ++ [⟨i.name, v⟩],
        next_interface_id := acc.next_interface_id } := by
  unfold step
  rw [h]
  simp only [addr_foldl, route_foldl, Bool.false_or, List.nil_append]
  rfl

theorem step_unmatched (s : State A R) (ℓ : Nat) (acc : Acc A R) (v : VPS)
    (h : findInf s v = none) :
    step s ℓ acc v =
      { acc with
        diff_add := acc.diff_add ++ newAdds ℓ v (vpsName acc.next_interface_id),
        interface_states := acc.interface_states ++
          [⟨vpsName acc.next_interface_id, v⟩],
        next_interface_id := acc.next_interface_id + 1 } := by
  unfold step
  rw [h]

/-- The master characterisation of the per-tenant loop. -/
theorem foldl_step_eq (s : State A R) (ℓ : Nat) (T : List VPS) :
    ∀ acc : Acc A R, T.foldl (step s ℓ) acc =
      { keep_interfaces := acc.keep_interfaces ++ keepIdxs s T,
        keep_routes := acc.keep_routes ++ keepRts s T,
        rem_addresses := acc.rem_addresses ++ remAddrs s T,
        diff_add := acc.diff_add ++ diffAdds s ℓ T acc.next_interface_id,
        interface_states := acc.interface_states ++
          assigns s T acc.next_interface_id,
        next_interface_id := acc.next_interface_id + uCount s T } := by
  induction T with
  | nil => intro acc; simp [keepIdxs, keepRts, remAddrs, diffAdds, assigns, uCount]
  | cons v ts ih =>
      intro acc
      rcases h : findInf s v with _ | i
      · rw [List.foldl_cons, step_unmatched s ℓ acc v h, ih]
        simp only [keepIdxs, keepRts, remAddrs, diffAdds, assigns, uCount,
          List.filterMap_cons, List.flatMap_cons, List.filter_cons, h,
          Option.map_none', Option.isNone_none, List.nil_append]
        simp [List.append_assoc, Nat.add_comm, Nat.add_assoc, Nat.add_left_comm]
      · rw [List.foldl_cons, step_matched s ℓ acc v i h, ih]
        simp only [keepIdxs, keepRts, remAddrs, diffAdds, assigns, uCount,
          List.filterMap_cons, List.flatMap_cons, List.filter_cons, h,
          Option.map_some', Option.isNone_some, List.nil_append]
        simp [List.append_assoc]

/-- `runSpecs` in terms of the static functions. -/
theorem runSpecs_eq (s : State A R) (ℓ : Nat) (T : List VPS) :
    runSpecs s ℓ T =
      { keep_interfaces := keepIdxs s T,
        keep_routes := keepRts s T,
        rem_addresses := remAddrs s T,
        diff_add := diffAdds s ℓ T (next_id_base s.interfaces),
        interface_states := assigns s T (next_id_base s.interfaces),
        next_interface_id := next_id_base s.interfaces + uCount s T } := by
  unfold runSpecs
  rw [foldl_step_eq]
  simp

/-- `make_diff_core` in terms of the static functions. -/
theorem make_diff_core_eq (ℓ : Nat) (T : List VPS) (s : State A R) :
    make_diff_core ℓ T s =
      ((remInterfaces s (keepIdxs s T)).map (fun idx => Diff.RemoveInterface idx)
        ++ (s.routes.filter (fun r => decide (r.message ∉ keepRts s T ∧
              r.interface ∉ remInterfaces s (keepIdxs s T)))).map
            (fun r => Diff.RemoveRoute r.message)
        ++ (remAddrs s T).map (fun m => Diff.RemoveAddress m)
        ++ diffAdds s ℓ T (next_id_base s.interfaces),
       assigns s T (next_id_base s.interfaces)) := by
  unfold make_diff_core
  rw [runSpecs_eq]

/-- Is the operation one of the `Add*` variants? -/
def isAddOp : Diff A R → Prop
  | .AddInterface _ => True
  | .AddAddress _ => True
  | .AddRoute _ => True
  | _ => False

theorem matchedAdds_isAdd (v : VPS) (i : Interface) (b4 : Bool) (F : List Nat)
    (b6 : Bool) :
    ∀ d ∈ (matchedAdds v i b4 F b6 : List (Diff A R)), isAddOp d := by
  intro d hd
  cases d with
  | AddInterface i => trivial
  | AddAddress a => trivial
  | AddRoute r => trivial
  | RemoveInterface idx =>
      exact absurd hd (by
        cases b4 <;> cases b6 <;> rcases hp : v.v4_public with _ | pv <;>
          simp [matchedAdds, hp])
  | RemoveAddress m =>
      exact absurd hd (by
        cases b4 <;> cases b6 <;> rcases hp : v.v4_public with _ | pv <;>
          simp [matchedAdds, hp])
  | RemoveRoute m =>
      exact absurd hd (by
        cases b4 <;> cases b6 <;> rcases hp : v.v4_public with _ | pv <;>
          simp [matchedAdds, hp])

theorem newAdds_isAdd (ℓ : Nat) (v : VPS) (name : String) :
    ∀ d ∈ (newAdds ℓ v name : List (Diff A R)), isAddOp d := by
  intro d hd
  cases d with
  | AddInterface i => trivial
  | AddAddress a => trivial
  | AddRoute r => trivial
  | RemoveInterface idx =>
      exact absurd hd (by rcases hp : v.v4_public with _ | pv <;> simp [newAdds, hp])
  | RemoveAddress m =>
      exact absurd hd (by rcases hp : v.v4_public with _ | pv <;> simp [newAdds, hp])
  | RemoveRoute m =>
      exact absurd hd (by rcases hp : v.v4_public with _ | pv <;> simp [newAdds, hp])

theorem diffAdds_isAdd (s : State A R) (ℓ : Nat) :
    ∀ (T : List VPS) (n : Nat) (d : Diff A R), d ∈ diffAdds s ℓ T n →
      isAddOp d := by
  intro T
  induction T with
  | nil => intro n d hd; simp [diffAdds] at hd
  | cons v ts ih =>
      intro n d hd
      unfold diffAdds at hd
      rcases h : findInf s v with _ | i <;> rw [h] at hd
      · rcases List.mem_append.1 hd with hd | hd
        · exact newAdds_isAdd ℓ v _ d hd
        · exact ih _ d hd
      · rcases List.mem_append.1 hd with hd | hd
        · exact matchedAdds_isAdd v i _ _ _ d hd
        · exact ih _ d hd

/-- **C2.** In every operation list emitted by the reconciler, all
`RemoveInterface` operations come first, then all `RemoveRoute` operations,
then all `RemoveAddress` operations, and all `Add*` operations come last, in
per-tenant discovery order (they are exactly the additions accumulated by
the tenant loop, in loop order); in particular every `Remove*` operation
precedes every `Add*` operation. -/
theorem claim_C2 (ℓ : Nat) (T : List VPS) (s : MState) :
    ∃ ri rr ra ad : List (Diff MAddr MRoute),
      (make_diff_core ℓ T s).1 = ri ++ rr ++ ra ++ ad ∧
      (∀ d ∈ ri, ∃ idx, d = Diff.RemoveInterface idx) ∧
      (∀ d ∈ rr, ∃ m, d = Diff.RemoveRoute m) ∧
      (∀ d ∈ ra, ∃ m, d = Diff.RemoveAddress m) ∧
      (∀ d ∈ ad, isAddOp d) ∧
      ad = (runSpecs s ℓ T).diff_add := by
  refine ⟨(remInterfaces s (keepIdxs s T)).map (fun idx => Diff.RemoveInterface idx),
    (s.routes.filter (fun r => decide (r.message ∉ keepRts s T ∧
        r.interface ∉ remInterfaces s (keepIdxs s T)))).map
      (fun r => Diff.RemoveRoute r.message),
    (remAddrs s T).map (fun m => Diff.RemoveAddress m),
    diffAdds s ℓ T (next_id_base s.interfaces), ?_, ?_, ?_, ?_, ?_, ?_⟩
  · rw [make_diff_core_eq]
  · intro d hd
    rcases List.mem_map.1 hd with ⟨idx, _, h⟩
    exact ⟨idx, h.symm⟩
  · intro d hd
    rcases List.mem_map.1 hd with ⟨r, _, h⟩
    exact ⟨r.message, h.symm⟩
  · intro d hd
    rcases List.mem_map.1 hd with ⟨m, _, h⟩
    exact ⟨m, h.symm⟩
  · exact fun d hd => diffAdds_isAdd s ℓ T _ d hd
  · rw [runSpecs_eq]

/-- **C8.** The reconciler returns an error exactly when resolving the parent
(root) link name fails, which happens exactly when no link of that exact name
exists, and the error is `InterfaceNotFound`; after a successful resolution
the rest of `make_diff` is pure and total, so it returns `Ok`. -/
theorem claim_C8 (links : List (String × Nat)) (root_interface : String)
    (T : List VPS) (s : MState) :
    ((∃ e, make_diff links root_interface T s = .error e) ↔
      ∀ l ∈ links, l.1 ≠ root_interface) ∧
    (∀ e, make_diff links root_interface T s = .error e →
      e = .InterfaceNotFound root_interface) ∧
    (∀ ℓ, interface_name_to_index links root_interface = .ok ℓ →
      make_diff links root_interface T s = .ok (make_diff_core ℓ T s)) := by
  rcases h : links.find? (fun l => decide (l.1 = root_interface)) with _ | l
  · have hm : make_diff links root_interface T s =
        .error (.InterfaceNotFound root_interface) := by
      unfold make_diff interface_name_to_index
      rw [h]
    refine ⟨⟨fun _ => ?_, fun _ => ⟨_, hm⟩⟩, ?_, ?_⟩
    · intro l hl
      have := List.find?_eq_none.1 h l hl
      simpa using this
    · intro e he
      rw [hm] at he
      injection he with h'
      exact h'.symm
    · intro ℓ hℓ
      unfold interface_name_to_index at hℓ
      rw [h] at hℓ
      cases hℓ
  · have hm : make_diff links root_interface T s =
        .ok (make_diff_core l.2 T s) := by
      unfold make_diff interface_name_to_index
      rw [h]
    refine ⟨⟨fun he => ?_, fun hnone => ?_⟩, ?_, ?_⟩
    · rcases he with ⟨e, he⟩
      rw [hm] at he
      cases he
    · have hp := List.find?_some h
      simp only [decide_eq_true_eq] at hp
      exact absurd hp (hnone l (List.mem_of_find?_eq_some h))
    · intro e he
      rw [hm] at he
      cases he
    · intro ℓ hℓ
      unfold interface_name_to_index at hℓ
      rw [h] at hℓ
      injection hℓ with h2
      rw [hm, h2]

/-- The names of the interfaces created by an operation list. -/
def addInterfaceNames (ops : List (Diff A R)) : List String :=
  ops.filterMap fun d =>
    match d with
    | .AddInterface i => some i.name
    | _ => none

theorem addInterfaceNames_append (l1 l2 : List (Diff A R)) :
    addInterfaceNames (l1 ++ l2) =
      addInterfaceNames l1 ++ addInterfaceNames l2 :=
  List.filterMap_append _ _ _

theorem addInterfaceNames_matchedAdds (v : VPS) (i : Interface) (b4 : Bool)
    (F : List Nat) (b6 : Bool) :
    addInterfaceNames (matchedAdds v i b4 F b6 : List (Diff A R)) = [] := by
  cases b4 <;> cases b6 <;> rcases hp : v.v4_public with _ | pv <;>
    simp [addInterfaceNames, matchedAdds, hp, List.filterMap_eq_nil_iff]

theorem addInterfaceNames_newAdds (ℓ : Nat) (v : VPS) (name : String) :
    addInterfaceNames (newAdds ℓ v name : List (Diff A R)) = [name] := by
  rcases hp : v.v4_public with _ | pv <;>
    simp [addInterfaceNames, newAdds, hp, List.filterMap_eq_nil_iff,
      List.filterMap_cons]

theorem addInterfaceNames_diffAdds (s : State A R) (ℓ : Nat) :
    ∀ (T : List VPS) (n : Nat),
      addInterfaceNames (diffAdds s ℓ T n) =
        (List.range (uCount s T)).map (fun j => vpsName (n + j)) := by
  intro T
  induction T with
  | nil => intro n; simp [diffAdds, uCount, addInterfaceNames]
  | cons v ts ih =>
      intro n
      rcases h : findInf s v with _ | i
      · have hu : uCount s (v :: ts) = uCount s ts + 1 := by
          simp [uCount, List.filter_cons, h]
        rw [hu]
        unfold diffAdds
        rw [h]
        rw [addInterfaceNames_append, addInterfaceNames_newAdds, ih]
        rw [List.range_succ_eq_map]
        simp only [List.map_cons, List.map_map, Nat.add_zero, List.cons_append,
          List.nil_append]
        congr 1
        ext j
        simp [Function.comp, Nat.add_comm, Nat.add_assoc, Nat.add_left_comm]
      · have hu : uCount s (v :: ts) = uCount s ts := by
          simp [uCount, List.filter_cons, h]
        rw [hu]
        unfold diffAdds
        rw [h]
        rw [addInterfaceNames_append, addInterfaceNames_matchedAdds, ih]
        simp

theorem addInterfaceNames_core (ℓ : Nat) (T : List VPS) (s : State A R) :
    addInterfaceNames (make_diff_core ℓ T s).1 =
      (List.range (uCount s T)).map
        (fun j => vpsName (next_id_base s.interfaces + j)) := by
  rw [make_diff_core_eq, ← addInterfaceNames_diffAdds s ℓ T]
  unfold addInterfaceNames
  rw [List.filterMap_append, List.filterMap_append, List.filterMap_append]
  have h1 : List.filterMap (fun d => match d with
      | Diff.AddInterface i => some i.name
      | _ => (none : Option String))
      ((remInterfaces s (keepIdxs s T)).map
        (fun idx => (Diff.RemoveInterface idx : Diff A R))) = [] := by
    rw [List.filterMap_eq_nil_iff]
    intro a ha
    rcases List.mem_map.1 ha with ⟨x, _, hx⟩
    subst hx; rfl
  have h2 : List.filterMap (fun d => match d with
      | Diff.AddInterface i => some i.name
      | _ => (none : Option String))
      ((s.routes.filter (fun r => decide (r.message ∉ keepRts s T ∧
          r.interface ∉ remInterfaces s (keepIdxs s T)))).map
        (fun r => (Diff.RemoveRoute r.message : Diff A R))) = [] := by
    rw [List.filterMap_eq_nil_iff]
    intro a ha
    rcases List.mem_map.1 ha with ⟨x, _, hx⟩
    subst hx; rfl
  have h3 : List.filterMap (fun d => match d with
      | Diff.AddInterface i => some i.name
      | _ => (none : Option String))
      ((remAddrs s T).map (fun m => (Diff.RemoveAddress m : Diff A R))) = [] := by
    rw [List.filterMap_eq_nil_iff]
    intro a ha
    rcases List.mem_map.1 ha with ⟨x, _, hx⟩
    subst hx; rfl
  rw [h1, h2, h3]
  simp

theorem foldl_max_init_le (L : List Nat) : ∀ b : Nat, b ≤ L.foldl Nat.max b := by
  induction L with
  | nil => intro b; exact Nat.le_refl b
  | cons x L ih =>
      intro b
      exact Nat.le_trans (Nat.le_max_left b x) (ih (Nat.max b x))

theorem mem_le_foldl_max (L : List Nat) :
    ∀ b : Nat, ∀ a ∈ L, a ≤ L.foldl Nat.max b := by
  induction L with
  | nil => intro b a ha; cases ha
  | cons x L ih =>
      intro b a ha
      rcases List.mem_cons.1 ha with h | h
      · subst h
        exact Nat.le_trans (Nat.le_max_right b a) (foldl_max_init_le L _)
      · exact ih (Nat.max b x) a h

theorem assigns_unmatched_names (s : State A R) :
    ∀ (T : List VPS) (n : Nat),
      ((assigns s T n).filter (fun st => (findInf s st.vps).isNone)).map
          (fun st => st.name) =
        (List.range (uCount s T)).map (fun j => vpsName (n + j)) := by
  intro T
  induction T with
  | nil => intro n; simp [assigns, uCount]
  | cons v ts ih =>
      intro n
      rcases h : findInf s v with _ | i
      · have hu : uCount s (v :: ts) = uCount s ts + 1 := by
          simp [uCount, List.filter_cons, h]
        rw [hu]
        unfold assigns
        rw [h]
        rw [List.filter_cons_of_pos (by simp [h]), List.map_cons, ih]
        rw [List.range_succ_eq_map]
        simp only [List.map_cons, List.map_map, Nat.add_zero, List.cons_append,
          List.nil_append]
        congr 1
        ext j
        simp [Function.comp, Nat.add_comm, Nat.add_assoc, Nat.add_left_comm]
      · have hu : uCount s (v :: ts) = uCount s ts := by
          simp [uCount, List.filter_cons, h]
        rw [hu]
        unfold assigns
        rw [h]
        rw [List.filter_cons_of_neg (by simp [h]), ih]

/-- **C5.** The reconciler computes `nextId` as one plus the maximum numeric
suffix of the existing interface names (default 0), once per tick, and
assigns the names `vps<nextId>`, `vps<nextId+1>`, ... to the tenant specs
with no matching VLAN id, in spec input order — both in the emitted
`AddInterface` operations and in the per-tenant assignment output; in
particular, with existing interfaces `vps3` and `vps7`, a newly added
unmatched spec gets the name `vps8`. -/
theorem claim_C5 (ℓ : Nat) (T : List VPS) (s : MState) :
    (addInterfaceNames (make_diff_core ℓ T s).1 =
      (List.range (uCount s T)).map (fun j =>
        vpsName ((s.interfaces.map (fun i => name_suffix_num i.name)).foldl
          Nat.max 0 + 1 + j))) ∧
    (((make_diff_core ℓ T s).2.filter
        (fun st => (findInf s st.vps).isNone)).map (fun st => st.name) =
      (List.range (uCount s T)).map (fun j =>
        vpsName ((s.interfaces.map (fun i => name_suffix_num i.name)).foldl
          Nat.max 0 + 1 + j))) ∧
    addInterfaceNames (make_diff_core 9 [⟨555, 3, none, 4⟩]
      (⟨[⟨"vps3", 1, 9, 300⟩, ⟨"vps7", 2, 9, 700⟩], [], []⟩ : MState)).1 =
      ["vps8"] := by
  refine ⟨?_, ?_, by decide⟩
  · exact addInterfaceNames_core ℓ T s
  · rw [make_diff_core_eq]
    exact assigns_unmatched_names s T _

/-- **C4** (counterexample to the cross-tick claim).  Tick 1: the snapshot
holds `vps7` (vlan 7, index 1) and `vps8` (vlan 8, index 2); the spec list
drops vlan 8, so tick 1 emits `RemoveInterface 2`, removing the interface
named `vps8`.  Tick 2 (on the model-applied state, with a new vlan-9 spec
added): the reconciler allocates the name `vps8` again — a freed name *is*
reassigned within the same process lifetime. -/
theorem counter_C4 :
    (⟨"vps8", 2, 9, 8⟩ : Interface) ∈
      ({interfaces := [⟨"vps7", 1, 9, 7⟩, ⟨"vps8", 2, 9, 8⟩],
        addresses := [], routes := []} : MState).interfaces ∧
    Diff.RemoveInterface 2 ∈
      (make_diff_core 9 [⟨7, 11, none, 22⟩]
        ({interfaces := [⟨"vps7", 1, 9, 7⟩, ⟨"vps8", 2, 9, 8⟩],
          addresses := [], routes := []} : MState)).1 ∧
    Diff.AddInterface ⟨"vps8", 0, 9, 9⟩ ∈
      (make_diff_core 9 [⟨7, 11, none, 22⟩, ⟨9, 33, none, 44⟩]
        (applyOnModel
          {interfaces := [⟨"vps7", 1, 9, 7⟩, ⟨"vps8", 2, 9, 8⟩],
            addresses := [], routes := []}
          (make_diff_core 9 [⟨7, 11, none, 22⟩]
            ({interfaces := [⟨"vps7", 1, 9, 7⟩, ⟨"vps8", 2, 9, 8⟩],
              addresses := [], routes := []} : MState)).1)).1 := by
  decide

/-- **C4** (amended).  Within a single reconciliation tick the allocated
interface-name numbers are pairwise distinct and each is strictly greater
than the numeric suffix of every interface name observed in that tick's
snapshot; the snapshot suffixes are used only to compute the allocation
base, so numbers are never reused inside a tick.  (Across ticks the base is
recomputed from the then-current snapshot, and a freed number above the
surviving maximum is reassigned, as the counterexample shows.) -/
theorem claim_C4 (ℓ : Nat) (T : List VPS) (s : MState) :
    ∃ ks : List Nat,
      addInterfaceNames (make_diff_core ℓ T s).1 = ks.map vpsName ∧
      ks.Nodup ∧
      ∀ k ∈ ks, ∀ i ∈ s.interfaces, name_suffix_num i.name < k := by
  refine ⟨(List.range (uCount s T)).map
    (fun j => next_id_base s.interfaces + j), ?_, ?_, ?_⟩
  · rw [addInterfaceNames_core, List.map_map]
    rfl
  · exact (List.nodup_range _).map (fun a b h => by omega)
  · intro k hk i hi
    rcases List.mem_map.1 hk with ⟨j, _, hj⟩
    have hle : name_suffix_num i.name ≤
        (s.interfaces.map (fun i => name_suffix_num i.name)).foldl Nat.max 0 :=
      mem_le_foldl_max _ 0 _ (List.mem_map_of_mem _ hi)
    have : name_suffix_num i.name < next_id_base s.interfaces := by
      unfold next_id_base
      omega
    omega

theorem mem_diffAdds_of_matched (s : State A R) (ℓ : Nat) {v : VPS}
    {i : Interface} (hfind : findInf s v = some i) {d : Diff A R}
    (hd : d ∈ matchedAdds v i ((addrsOn s i.index).any (goodAddr v))
      ((routesOn s i.index).filterMap (destMatch v))
      ((routesOn s i.index).any (v6Match v))) :
    ∀ (T : List VPS) (n : Nat), v ∈ T → d ∈ diffAdds s ℓ T n := by
  intro T
  induction T with
  | nil => intro n hv; cases hv
  | cons w ts ih =>
      intro n hv
      rcases List.mem_cons.1 hv with h | h
      · subst h
        unfold diffAdds
        rw [hfind]
        exact List.mem_append_left _ hd
      · unfold diffAdds
        rcases hw : findInf s w with _ | iw
        · exact List.mem_append_right _ (ih _ h)
        · exact List.mem_append_right _ (ih _ h)

theorem mem_core_of_mem_diffAdds (ℓ : Nat) (T : List VPS) (s : State A R)
    {d : Diff A R} (hd : d ∈ diffAdds s ℓ T (next_id_base s.interfaces)) :
    d ∈ (make_diff_core ℓ T s).1 := by
  rw [make_diff_core_eq]
  exact List.mem_append_right _ hd

theorem mem_remAddrs_intro (s : State A R) {v : VPS} {i : Interface}
    (hfind : findInf s v = some i) {m : A}
    (hm : m ∈ (addrsOn s i.index).filterMap (badMsg v)) :
    ∀ T : List VPS, v ∈ T → m ∈ remAddrs s T := by
  intro T hv
  unfold remAddrs
  refine List.mem_flatMap.2 ⟨v, hv, ?_⟩
  rw [hfind]
  exact hm

theorem mem_core_of_mem_remAddrs (ℓ : Nat) (T : List VPS) (s : State A R)
    {m : A} (hm : m ∈ remAddrs s T) :
    Diff.RemoveAddress m ∈ (make_diff_core ℓ T s).1 := by
  rw [make_diff_core_eq]
  exact List.mem_append_left _
    (List.mem_append_right _ (List.mem_map_of_mem _ hm))

/-- **C3** (counterexample to the claim as stated).  The kept interface
`vps1` (vlan 5, index 1) carries a single IPv6 address `99/64`, which is not
the private IPv4 address `11` at prefix length 31 required by the spec; yet
the emitted operation list — computed in full — contains no `RemoveAddress`
at all: IPv6 addresses are skipped, not queued for removal. -/
theorem counter_C3 :
    (⟨1, IpAddr.v6 99, 64, ⟨1, IpAddr.v6 99, 64, 0⟩⟩ : Address MAddr) ∈
      (⟨[⟨"vps1", 1, 9, 5⟩], [⟨1, IpAddr.v6 99, 64, ⟨1, IpAddr.v6 99, 64, 0⟩⟩],
        []⟩ : MState).addresses ∧
    findInf (⟨[⟨"vps1", 1, 9, 5⟩],
        [⟨1, IpAddr.v6 99, 64, ⟨1, IpAddr.v6 99, 64, 0⟩⟩], []⟩ : MState)
      ⟨5, 11, none, 22⟩ = some ⟨"vps1", 1, 9, 5⟩ ∧
    ¬ (IpAddr.v6 99 = IpAddr.v4 11 ∧ (64 : Nat) = 31) ∧
    (make_diff_core 9 [⟨5, 11, none, 22⟩]
      (⟨[⟨"vps1", 1, 9, 5⟩],
        [⟨1, IpAddr.v6 99, 64, ⟨1, IpAddr.v6 99, 64, 0⟩⟩], []⟩ : MState)).1 =
      [Diff.AddAddress ⟨IpAddr.v4 11, 31, "vps1"⟩,
       Diff.AddRoute ⟨IpAddr.v6 22, 64, "vps1"⟩] := by
  decide

/-- **C3** (amended).  For every tenant spec whose VLAN id matches an
existing interface, and for every collected *IPv4* address on that kept
interface, if the address is not the spec's private IPv4 address at prefix
length 31 then a `RemoveAddress` for that address is queued (IPv6 addresses
are skipped); and if no address on the interface satisfied the `/31`
requirement, an `AddAddress` of the private address at `/31` on that
interface is queued. -/
theorem claim_C3 (ℓ : Nat) (T : List VPS) (s : MState) (v : VPS)
    (i : Interface) (hv : v ∈ T) (hfind : findInf s v = some i) :
    (∀ a ∈ s.addresses, a.interface = i.index →
      ∀ d : Nat, a.address = IpAddr.v4 d →
      ¬(v.v4_addr = d ∧ a.prefix_length = 31) →
      Diff.RemoveAddress a.message ∈ (make_diff_core ℓ T s).1) ∧
    ((∀ a ∈ addrsOn s i.index, goodAddr v a = false) →
      Diff.AddAddress ⟨IpAddr.v4 v.v4_addr, 31, i.name⟩ ∈
        (make_diff_core ℓ T s).1) := by
  constructor
  · intro a ha hai d had hbad
    have hmem : a ∈ addrsOn s i.index := by
      unfold addrsOn
      exact List.mem_filter.2 ⟨ha, by simp [hai]⟩
    have hb : badMsg v a = some a.message := by
      unfold badMsg
      rw [had]
      simp [hbad]
    exact mem_core_of_mem_remAddrs ℓ T s
      (mem_remAddrs_intro s hfind
        (List.mem_filterMap.2 ⟨a, hmem, hb⟩) T hv)
  · intro hnone
    have hany : (addrsOn s i.index).any (goodAddr v) = false := by
      rw [List.any_eq_false]
      intro a ha
      simp [hnone a ha]
    refine mem_core_of_mem_diffAdds ℓ T s
      (mem_diffAdds_of_matched s ℓ hfind ?_ T _ hv)
    rw [hany]
    unfold matchedAdds
    exact List.mem_append_left _ (List.mem_append_left _ (by simp))

/-- **C3** (witness for the amended theorem): interface `vps1` (vlan 5) holds
a wrong IPv4 address `77/31`; its removal and the `AddAddress` of the
expected `11/31` are both emitted. -/
theorem claim_C3_witness :
    Diff.RemoveAddress (⟨1, IpAddr.v4 77, 31, 0⟩ : MAddr) ∈
      (make_diff_core 9 [⟨5, 11, none, 22⟩]
        (⟨[⟨"vps1", 1, 9, 5⟩],
          [⟨1, IpAddr.v4 77, 31, ⟨1, IpAddr.v4 77, 31, 0⟩⟩], []⟩ : MState)).1 ∧
    Diff.AddAddress ⟨IpAddr.v4 11, 31, "vps1"⟩ ∈
      (make_diff_core 9 [⟨5, 11, none, 22⟩]
        (⟨[⟨"vps1", 1, 9, 5⟩],
          [⟨1, IpAddr.v4 77, 31, ⟨1, IpAddr.v4 77, 31, 0⟩⟩], []⟩ : MState)).1 := by
  constructor
  · exact (claim_C3 9 [⟨5, 11, none, 22⟩] _ ⟨5, 11, none, 22⟩ ⟨"vps1", 1, 9, 5⟩
      (by decide) (by decide)).1
      ⟨1, IpAddr.v4 77, 31, ⟨1, IpAddr.v4 77, 31, 0⟩⟩ (by decide) (by decide)
      77 (by decide) (by decide)
  · exact (claim_C3 9 [⟨5, 11, none, 22⟩] _ ⟨5, 11, none, 22⟩ ⟨"vps1", 1, 9, 5⟩
      (by decide) (by decide)).2 (by decide)

/-- **C8** (witness): with a kernel link table holding `eth0` at index 5,
resolution succeeds and `make_diff` returns the pure diff. -/
theorem claim_C8_witness :
    make_diff [("eth0", 5)] "eth0" [] (⟨[], [], []⟩ : MState) =
      .ok (make_diff_core 5 [] ⟨[], [], []⟩) :=
  (claim_C8 [("eth0", 5)] "eth0" [] ⟨[], [], []⟩).2.2 5 rfl

theorem mem_keepIdxs_intro (s : State A R) {v : VPS} {i : Interface}
    (hfind : findInf s v = some i) :
    ∀ T : List VPS, v ∈ T → i.index ∈ keepIdxs s T := by
  intro T hv
  unfold keepIdxs
  exact List.mem_filterMap.2 ⟨v, hv, by rw [hfind]; rfl⟩

theorem mem_remInterfaces (s : State A R) (keep : List Nat) (idx : Nat) :
    idx ∈ remInterfaces s keep ↔
      ∃ i ∈ s.interfaces, i.index = idx ∧ idx ∉ keep := by
  unfold remInterfaces
  constructor
  · intro h
    rcases List.mem_map.1 h with ⟨i, hi, hidx⟩
    rcases List.mem_filter.1 hi with ⟨hmem, hkeep⟩
    refine ⟨i, hmem, hidx, ?_⟩
    rw [← hidx]
    simpa using hkeep
  · rintro ⟨i, hmem, hidx, hkeep⟩
    refine List.mem_map.2 ⟨i, List.mem_filter.2 ⟨hmem, ?_⟩, hidx⟩
    rw [hidx]
    simpa using hkeep

theorem badMsg_some (v : VPS) (a : Address A) {m : A}
    (h : badMsg v a = some m) : m = a.message := by
  unfold badMsg at h
  split at h
  · split at h
    · cases h
    · injection h with h
      exact h.symm
  · cases h

theorem remAddrs_interface_kept (s : State A R) (T : List VPS) {m : A}
    (hm : m ∈ remAddrs s T) :
    ∃ (v : VPS) (i : Interface) (a : Address A), v ∈ T ∧
      findInf s v = some i ∧ a ∈ s.addresses ∧ a.interface = i.index ∧
      m = a.message ∧ i.index ∈ keepIdxs s T := by
  rcases List.mem_flatMap.1 hm with ⟨v, hv, hmv⟩
  rcases hfind : findInf s v with _ | i <;> rw [hfind] at hmv
  · cases hmv
  · rcases List.mem_filterMap.1 hmv with ⟨a, ha, hbad⟩
    rcases List.mem_filter.1 ha with ⟨hmem, hint⟩
    exact ⟨v, i, a, hv, hfind, hmem, by simpa using hint,
      badMsg_some v a hbad, mem_keepIdxs_intro s hfind T hv⟩

/-- Decomposition of membership in the emitted operation list. -/
theorem mem_core_cases (ℓ : Nat) (T : List VPS) (s : State A R)
    {d : Diff A R} (hd : d ∈ (make_diff_core ℓ T s).1) :
    d ∈ (remInterfaces s (keepIdxs s T)).map
        (fun idx => (Diff.RemoveInterface idx : Diff A R)) ∨
    d ∈ (s.routes.filter (fun r => decide (r.message ∉ keepRts s T ∧
        r.interface ∉ remInterfaces s (keepIdxs s T)))).map
        (fun r => (Diff.RemoveRoute r.message : Diff A R)) ∨
    d ∈ (remAddrs s T).map (fun m => (Diff.RemoveAddress m : Diff A R)) ∨
    d ∈ diffAdds s ℓ T (next_id_base s.interfaces) := by
  rw [make_diff_core_eq] at hd
  rcases List.mem_append.1 hd with h | h
  · rcases List.mem_append.1 h with h | h
    · rcases List.mem_append.1 h with h | h
      · exact Or.inl h
      · exact Or.inr (Or.inl h)
    · exact Or.inr (Or.inr (Or.inl h))
  · exact Or.inr (Or.inr (Or.inr h))

/-- **C6.** No `RemoveRoute` and no `RemoveAddress` in an emitted operation
list refers to an interface index that also has a `RemoveInterface` in the
same list: routes and addresses owned by a removed interface are never
explicitly queued (their netlink handles record the owning index, which the
`Collected` mirror ties to the collected fields). -/
theorem claim_C6 (ℓ : Nat) (T : List VPS) (s : MState) (hc : Collected s)
    (idx : Nat)
    (hri : Diff.RemoveInterface idx ∈ (make_diff_core ℓ T s).1) :
    (∀ m : MRoute, Diff.RemoveRoute m ∈ (make_diff_core ℓ T s).1 →
      m.interface ≠ idx) ∧
    (∀ m : MAddr, Diff.RemoveAddress m ∈ (make_diff_core ℓ T s).1 →
      m.interface ≠ idx) := by
  have hidx : idx ∈ remInterfaces s (keepIdxs s T) := by
    rcases mem_core_cases ℓ T s hri with h | h | h | h
    · rcases List.mem_map.1 h with ⟨x, hx, he⟩
      injection he with he
      exact he ▸ hx
    · rcases List.mem_map.1 h with ⟨x, _, he⟩
      cases he
    · rcases List.mem_map.1 h with ⟨x, _, he⟩
      cases he
    · exact absurd (diffAdds_isAdd s ℓ T _ _ h) (by simp [isAddOp])
  have hnk : idx ∉ keepIdxs s T := by
    rcases (mem_remInterfaces s _ idx).1 hidx with ⟨i, _, _, hk⟩
    exact hk
  constructor
  · intro m hm
    have : ∃ r ∈ s.routes, m = (r : Route MRoute).message ∧
        r.interface ∉ remInterfaces s (keepIdxs s T) := by
      rcases mem_core_cases ℓ T s hm with h | h | h | h
      · rcases List.mem_map.1 h with ⟨x, _, he⟩
        cases he
      · rcases List.mem_map.1 h with ⟨r, hr, he⟩
        rcases List.mem_filter.1 hr with ⟨hmem, hcond⟩
        injection he with he
        refine ⟨r, hmem, he.symm, ?_⟩
        have := of_decide_eq_true hcond
        exact this.2
      · rcases List.mem_map.1 h with ⟨x, _, he⟩
        cases he
      · exact absurd (diffAdds_isAdd s ℓ T _ _ h) (by simp [isAddOp])
    rcases this with ⟨r, hr, hmsg, hnot⟩
    have hmir := (hc.route_mirror r hr).1
    rw [hmsg, hmir]
    intro hcontra
    exact hnot (hcontra ▸ hidx)
  · intro m hm
    have hmem : m ∈ remAddrs s T := by
      rcases mem_core_cases ℓ T s hm with h | h | h | h
      · rcases List.mem_map.1 h with ⟨x, _, he⟩
        cases he
      · rcases List.mem_map.1 h with ⟨x, _, he⟩
        cases he
      · rcases List.mem_map.1 h with ⟨x, hx, he⟩
        injection he with he
        exact he ▸ hx
      · exact absurd (diffAdds_isAdd s ℓ T _ _ h) (by simp [isAddOp])
    rcases remAddrs_interface_kept s T hmem with
      ⟨v, i, a, hv, hfind, ha, hai, hmsg, hkept⟩
    have hmir := (hc.addr_mirror a ha).1
    rw [hmsg, hmir, hai]
    intro hcontra
    exact hnk (hcontra ▸ hkept)

/-- **C6** (witness): vlan 7 is kept (index 1), vlan 8's interface (index 2)
is removed; the stale route and address live on index 2 and indeed no
`RemoveRoute`/`RemoveAddress` of the emitted list touches index 2. -/
theorem claim_C6_witness :
    (∀ m : MRoute, Diff.RemoveRoute m ∈
      (make_diff_core 9 [⟨7, 11, none, 22⟩]
        (⟨[⟨"vps7", 1, 9, 7⟩, ⟨"vps8", 2, 9, 8⟩],
          [⟨2, IpAddr.v4 50, 31, ⟨2, IpAddr.v4 50, 31, 0⟩⟩],
          [⟨IpAddr.v6 44, 64, 2, ⟨2, IpAddr.v6 44, 64, 0⟩⟩]⟩ : MState)).1 →
      m.interface ≠ 2) ∧
    (∀ m : MAddr, Diff.RemoveAddress m ∈
      (make_diff_core 9 [⟨7, 11, none, 22⟩]
        (⟨[⟨"vps7", 1, 9, 7⟩, ⟨"vps8", 2, 9, 8⟩],
          [⟨2, IpAddr.v4 50, 31, ⟨2, IpAddr.v4 50, 31, 0⟩⟩],
          [⟨IpAddr.v6 44, 64, 2, ⟨2, IpAddr.v6 44, 64, 0⟩⟩]⟩ : MState)).1 →
      m.interface ≠ 2) :=
  claim_C6 9 [⟨7, 11, none, 22⟩]
    (⟨[⟨"vps7", 1, 9, 7⟩, ⟨"vps8", 2, 9, 8⟩],
      [⟨2, IpAddr.v4 50, 31, ⟨2, IpAddr.v4 50, 31, 0⟩⟩],
      [⟨IpAddr.v6 44, 64, 2, ⟨2, IpAddr.v6 44, 64, 0⟩⟩]⟩ : MState)
    ⟨by decide, by decide, by decide, by decide, by decide, by decide⟩
    2 (by decide)

/-- The interface name targeted by an `AddAddress`/`AddRoute`, if any. -/
def addTargetName : Diff A R → Option String
  | .AddAddress a => some a.interface_name
  | .AddRoute r => some r.interface_name
  | _ => none

theorem append_split_of_not_mem {α : Type} {X Y pre post : List α} {x : α}
    (h : X ++ Y = pre ++ x :: post) (hx : x ∉ X) :
    ∃ Z, pre = X ++ Z ∧ Y = Z ++ x :: post := by
  induction X generalizing pre with
  | nil => exact ⟨pre, rfl, h⟩
  | cons b X ih =>
      cases pre with
      | nil =>
          rw [List.nil_append] at h
          injection h with h1 h2
          exact absurd (h1 ▸ List.mem_cons_self b X) hx
      | cons p pre' =>
          rw [List.cons_append, List.cons_append] at h
          injection h with h1 h2
          rcases ih h2 (fun hm => hx (List.mem_cons_of_mem b hm)) with
            ⟨Z, hZ1, hZ2⟩
          exact ⟨Z, by rw [List.cons_append, h1, hZ1], hZ2⟩

theorem matchedAdds_target (v : VPS) (i : Interface) (b4 : Bool)
    (F : List Nat) (b6 : Bool) {d : Diff A R} {η : String}
    (hd : d ∈ matchedAdds v i b4 F b6)
    (hη : addTargetName d = some η) : η = i.name := by
  unfold matchedAdds at hd
  rcases List.mem_append.1 hd with hd | hd
  · rcases List.mem_append.1 hd with hd | hd
    · cases b4
      · simp only [Bool.false_eq_true, if_neg, List.mem_singleton,
          if_false] at hd
        subst hd
        injection hη with hη
        exact hη.symm
      · simp at hd
    · rcases hp : v.v4_public with _ | pv <;> rw [hp] at hd
      · simp at hd
      · rcases List.mem_map.1 hd with ⟨x, _, hx⟩
        subst hx
        injection hη with hη
        exact hη.symm
  · cases b6
    · simp only [Bool.false_eq_true, if_neg, List.mem_singleton,
        if_false] at hd
      subst hd
      injection hη with hη
      exact hη.symm
    · simp at hd

theorem newAdds_target (ℓ : Nat) (v : VPS) (name : String) {d : Diff A R}
    {η : String} (hd : d ∈ newAdds ℓ v name)
    (hη : addTargetName d = some η) : η = name := by
  unfold newAdds at hd
  rcases List.mem_append.1 hd with hd | hd
  · rcases List.mem_append.1 hd with hd | hd
    · rcases List.mem_cons.1 hd with h | h
      · subst h
        cases hη
      · simp only [List.mem_singleton] at h
        subst h
        injection hη with hη
        exact hη.symm
    · rcases hp : v.v4_public with _ | pv <;> rw [hp] at hd
      · simp at hd
      · rcases List.mem_map.1 hd with ⟨x, _, hx⟩
        subst hx
        injection hη with hη
        exact hη.symm
  · simp only [List.mem_singleton] at hd
    subst hd
    injection hη with hη
    exact hη.symm

theorem diffAdds_target (s : State A R) (ℓ : Nat) :
    ∀ (T : List VPS) (n : Nat) (pre post : List (Diff A R)) (d : Diff A R)
      (η : String),
      diffAdds s ℓ T n = pre ++ d :: post →
      addTargetName d = some η →
      (∃ v ∈ T, ∃ i, findInf s v = some i ∧ η = i.name) ∨
      (∃ i', Diff.AddInterface i' ∈ pre ∧ i'.name = η) := by
  intro T
  induction T with
  | nil =>
      intro n pre post d η h hη
      rw [show diffAdds s ℓ [] n = [] from rfl] at h
      cases pre <;> simp at h
  | cons v ts ih =>
      intro n pre post d η h hη
      rcases hf : findInf s v with _ | i
      · unfold diffAdds at h
        rw [hf] at h
        rcases List.append_eq_append_iff.1 h with ⟨mid, hpre, hrest⟩ |
          ⟨mid, hnew, hmid⟩
        · rcases ih _ mid post d η hrest hη with hl | ⟨i', hi', hn⟩
          · rcases hl with ⟨w, hw, hres⟩
            exact Or.inl ⟨w, List.mem_cons_of_mem v hw, hres⟩
          · exact Or.inr ⟨i', hpre ▸ List.mem_append_right _ hi', hn⟩
        · cases mid with
          | nil =>
              rw [List.append_nil] at hnew
              rw [List.nil_append] at hmid
              rcases ih _ [] post d η hmid.symm hη with hl | ⟨i', hi', _⟩
              · rcases hl with ⟨w, hw, hres⟩
                exact Or.inl ⟨w, List.mem_cons_of_mem v hw, hres⟩
              · cases hi'
          | cons e mid' =>
              rw [List.cons_append] at hmid
              injection hmid with hde hpost
              have hdnew : d ∈ newAdds ℓ v (vpsName n) := by
                rw [hnew, hde]
                exact List.mem_append_right _ (List.mem_cons_self _ _)
              have hname := newAdds_target ℓ v (vpsName n) hdnew hη
              cases pre with
              | nil =>
                  rw [List.nil_append] at hnew
                  have h2 : some (Diff.AddInterface
                      (⟨vpsName n, 0, ℓ, v.vlan⟩ : Interface) : Diff A R) =
                      some e := congrArg List.head? hnew
                  injection h2 with h2
                  rw [hde, ← h2] at hη
                  cases hη
              | cons p pre' =>
                  refine Or.inr ⟨⟨vpsName n, 0, ℓ, v.vlan⟩, ?_, hname.symm⟩
                  rw [List.cons_append] at hnew
                  have h2 : some (Diff.AddInterface
                      (⟨vpsName n, 0, ℓ, v.vlan⟩ : Interface) : Diff A R) =
                      some p := congrArg List.head? hnew
                  injection h2 with h2
                  rw [h2]
                  exact List.mem_cons_self p pre'
      · unfold diffAdds at h
        rw [hf] at h
        rcases List.append_eq_append_iff.1 h with ⟨mid, hpre, hrest⟩ |
          ⟨mid, hmat, hmid⟩
        · rcases ih _ mid post d η hrest hη with hl | ⟨i', hi', hn⟩
          · rcases hl with ⟨w, hw, hres⟩
            exact Or.inl ⟨w, List.mem_cons_of_mem v hw, hres⟩
          · exact Or.inr ⟨i', hpre ▸ List.mem_append_right _ hi', hn⟩
        · cases mid with
          | nil =>
              rw [List.nil_append] at hmid
              rcases ih _ [] post d η hmid.symm hη with hl | ⟨i', hi', _⟩
              · rcases hl with ⟨w, hw, hres⟩
                exact Or.inl ⟨w, List.mem_cons_of_mem v hw, hres⟩
              · cases hi'
          | cons e mid' =>
              rw [List.cons_append] at hmid
              injection hmid with hde hpost
              have hdm : d ∈ matchedAdds v i ((addrsOn s i.index).any (goodAddr v))
                  ((routesOn s i.index).filterMap (destMatch v))
                  ((routesOn s i.index).any (v6Match v)) := by
                rw [hmat, hde]
                exact List.mem_append_right _ (List.mem_cons_self _ _)
              exact Or.inl ⟨v, List.mem_cons_self v ts, i, hf,
                matchedAdds_target v i _ _ _ hdm hη⟩

/-- **C10.** Every `AddAddress`/`AddRoute` in an emitted operation list
targets an interface name that is either the name of an existing interface
kept for a matched tenant spec, or a name introduced by an `AddInterface`
operation appearing strictly earlier in the same list — the applier's
by-name resolution never targets a name that neither exists nor was created
by a preceding operation of the same list. -/
theorem claim_C10 (ℓ : Nat) (T : List VPS) (s : MState)
    (pre post : List (Diff MAddr MRoute)) (d : Diff MAddr MRoute) (η : String)
    (heq : (make_diff_core ℓ T s).1 = pre ++ d :: post)
    (hname : addTargetName d = some η) :
    (∃ v ∈ T, ∃ i, findInf s v = some i ∧ η = i.name) ∨
    (∃ i', Diff.AddInterface i' ∈ pre ∧ i'.name = η) := by
  rw [make_diff_core_eq] at heq
  rw [List.append_assoc, List.append_assoc] at heq
  rw [← List.append_assoc, ← List.append_assoc] at heq
  have hnotX : d ∉ (remInterfaces s (keepIdxs s T)).map
      (fun idx => (Diff.RemoveInterface idx : Diff MAddr MRoute)) ++
      (s.routes.filter (fun r => decide (r.message ∉ keepRts s T ∧
        r.interface ∉ remInterfaces s (keepIdxs s T)))).map
      (fun r => (Diff.RemoveRoute r.message : Diff MAddr MRoute)) ++
      (remAddrs s T).map
        (fun m => (Diff.RemoveAddress m : Diff MAddr MRoute)) := by
    intro hmem
    rcases List.mem_append.1 hmem with hmem | hmem
    · rcases List.mem_append.1 hmem with hmem | hmem
      · rcases List.mem_map.1 hmem with ⟨x, _, hx⟩
        rw [← hx] at hname
        cases hname
      · rcases List.mem_map.1 hmem with ⟨x, _, hx⟩
        rw [← hx] at hname
        cases hname
    · rcases List.mem_map.1 hmem with ⟨x, _, hx⟩
      rw [← hx] at hname
      cases hname
  rcases append_split_of_not_mem heq hnotX with ⟨Z, hZpre, hZ⟩
  rcases diffAdds_target s ℓ T _ Z post d η hZ hname with hl | ⟨i', hi', hn⟩
  · exact Or.inl hl
  · exact Or.inr ⟨i', hZpre ▸ List.mem_append_right _ hi', hn⟩

/-- **C10** (witness): on an empty snapshot with one tenant, the emitted
`AddAddress` targets the name created by the `AddInterface` right before
it. -/
theorem claim_C10_witness :
    (∃ v ∈ [(⟨5, 11, none, 22⟩ : VPS)], ∃ i,
      findInf (⟨[], [], []⟩ : MState) v = some i ∧ "vps1" = i.name) ∨
    (∃ i', Diff.AddInterface i' ∈
      [(Diff.AddInterface ⟨"vps1", 0, 9, 5⟩ : Diff MAddr MRoute)] ∧
      i'.name = "vps1") :=
  claim_C10 9 [⟨5, 11, none, 22⟩] ⟨[], [], []⟩
    [Diff.AddInterface ⟨"vps1", 0, 9, 5⟩]
    [Diff.AddRoute ⟨IpAddr.v6 22, 64, "vps1"⟩]
    (Diff.AddAddress ⟨IpAddr.v4 11, 31, "vps1"⟩) "vps1" (by decide) rfl

theorem extract_address_message (m : RawAddr) :
    (extract_address m).message = m := by
  unfold extract_address
  generalize hinit : (⟨m.index, IpAddr.v4 0, m.prefix_len, m⟩ :
    Address RawAddr) = init
  have hmsg : init.message = m := by rw [← hinit]
  clear hinit
  induction m.nlas generalizing init with
  | nil => exact hmsg
  | cons nla rest ih =>
      rw [List.foldl_cons]
      apply ih
      cases nla with
      | address d =>
          show (if m.family = AF_INET then
              { init with address := IpAddr.v4 (bytesToNat d) }
            else if m.family = AF_INET6 then
              { init with address := IpAddr.v6 (bytesToNat d) }
            else init).message = m
          by_cases h4 : m.family = AF_INET
          · rw [if_pos h4]
            exact hmsg
          · rw [if_neg h4]
            by_cases h6 : m.family = AF_INET6
            · rw [if_pos h6]
              exact hmsg
            · rw [if_neg h6]
              exact hmsg
      | otherAddr => exact hmsg

theorem route_from_nlas_message (fam : Nat) :
    ∀ (nlas : List RouteNla) (r r' : Route RawRoute),
      route_from_nlas fam r nlas = some r' → r'.message = r.message := by
  intro nlas
  induction nlas with
  | nil =>
      intro r r' h
      injection h with h
      rw [← h]
  | cons nla rest ih =>
      intro r r' h
      cases nla with
      | oif i =>
          rw [show route_from_nlas fam r (RouteNla.oif i :: rest) =
            route_from_nlas fam { r with interface := i } rest from rfl] at h
          exact ih { r with interface := i } r' h
      | destination d =>
          rw [show route_from_nlas fam r (RouteNla.destination d :: rest) =
            (if fam = AF_INET then
              route_from_nlas fam
                { r with destination := IpAddr.v4 (bytesToNat d) } rest
             else if fam = AF_INET6 then
              route_from_nlas fam
                { r with destination := IpAddr.v6 (bytesToNat d) } rest
             else none) from rfl] at h
          by_cases h4 : fam = AF_INET
          · rw [if_pos h4] at h
            exact ih { r with destination := IpAddr.v4 (bytesToNat d) } r' h
          · rw [if_neg h4] at h
            by_cases h6 : fam = AF_INET6
            · rw [if_pos h6] at h
              exact ih { r with destination := IpAddr.v6 (bytesToNat d) } r' h
            · rw [if_neg h6] at h
              cases h
      | otherRoute =>
          rw [show route_from_nlas fam r (RouteNla.otherRoute :: rest) =
            route_from_nlas fam r rest from rfl] at h
          exact ih _ _ h

/-- **C7.** Ownership isolation.  (a) Every interface in the collector's
output comes from a raw link message that is of VLAN kind *and* has a
`vps`-named `IfName` attribute; (b) every collected address comes from a raw
message with universe scope, round-tripped as its removal handle; (c) every
collected route comes from a raw message whose protocol equals the
configured managed-route marker; and (d) every `Remove*` operation emitted by
the reconciler refers to a resource of the collected snapshot (removed
interface indices, route handles and address handles all come from the
snapshot), so nothing outside the ownership filters is ever touched. -/
theorem claim_C7 :
    (∀ (msgs : List RawLink), ∀ i ∈ get_vlan_interfaces msgs,
      ∃ m ∈ msgs, is_vlan_link m = true ∧ has_vps_name m = true ∧
        i = extract_interface m) ∧
    (∀ (amsgs : List RawAddr), ∀ a ∈ get_addresses amsgs,
      ∃ m ∈ amsgs, m.scope = RT_SCOPE_UNIVERSE ∧ a = extract_address m ∧
        a.message = m) ∧
    (∀ (v4_msgs v6_msgs : List RawRoute) (route_proto : Nat),
      ∀ r ∈ get_routes v4_msgs v6_msgs route_proto,
        r.message.protocol = route_proto ∧
        (r.message ∈ v4_msgs ∨ r.message ∈ v6_msgs)) ∧
    (∀ (ℓ : Nat) (T : List VPS) (s : State RawAddr RawRoute),
      (∀ idx, Diff.RemoveInterface idx ∈ (make_diff_core ℓ T s).1 →
        ∃ i ∈ s.interfaces, i.index = idx) ∧
      (∀ m, Diff.RemoveRoute m ∈ (make_diff_core ℓ T s).1 →
        ∃ r ∈ s.routes, r.message = m) ∧
      (∀ m, Diff.RemoveAddress m ∈ (make_diff_core ℓ T s).1 →
        ∃ a ∈ s.addresses, a.message = m)) := by
  refine ⟨?_, ?_, ?_, ?_⟩
  · intro msgs i hi
    unfold get_vlan_interfaces at hi
    rcases List.mem_map.1 hi with ⟨m, hm, hext⟩
    rcases List.mem_filter.1 hm with ⟨hmem, hcond⟩
    rcases Bool.and_eq_true_iff.1 hcond with ⟨hvlan, hvps⟩
    exact ⟨m, hmem, hvlan, hvps, hext.symm⟩
  · intro amsgs a ha
    unfold get_addresses at ha
    rcases List.mem_map.1 ha with ⟨m, hm, hext⟩
    rcases List.mem_filter.1 hm with ⟨hmem, hcond⟩
    refine ⟨m, hmem, by simpa using hcond, hext.symm, ?_⟩
    rw [← hext]
    exact extract_address_message m
  · intro v4_msgs v6_msgs route_proto r hr
    unfold get_routes at hr
    rcases List.mem_filterMap.1 hr with ⟨m, hm, hsome⟩
    have hmsg : r.message = m := route_from_nlas_message _ _ _ _ hsome
    rcases List.mem_append.1 hm with hm | hm <;>
      rcases List.mem_filter.1 hm with ⟨hmem, hproto⟩
    · exact ⟨by rw [hmsg]; simpa using hproto, Or.inl (hmsg ▸ hmem)⟩
    · exact ⟨by rw [hmsg]; simpa using hproto, Or.inr (hmsg ▸ hmem)⟩
  · intro ℓ T s
    refine ⟨?_, ?_, ?_⟩
    · intro idx hmem
      have hidx : idx ∈ remInterfaces s (keepIdxs s T) := by
        rcases mem_core_cases ℓ T s hmem with h | h | h | h
        · rcases List.mem_map.1 h with ⟨x, hx, he⟩
          injection he with he
          exact he ▸ hx
        · rcases List.mem_map.1 h with ⟨x, _, he⟩
          cases he
        · rcases List.mem_map.1 h with ⟨x, _, he⟩
          cases he
        · exact absurd (diffAdds_isAdd s ℓ T _ _ h) (by simp [isAddOp])
      rcases (mem_remInterfaces s _ idx).1 hidx with ⟨i, hi, hieq, _⟩
      exact ⟨i, hi, hieq⟩
    · intro m hmem
      rcases mem_core_cases ℓ T s hmem with h | h | h | h
      · rcases List.mem_map.1 h with ⟨x, _, he⟩
        cases he
      · rcases List.mem_map.1 h with ⟨r, hr, he⟩
        injection he with he
        exact ⟨r, (List.mem_filter.1 hr).1, he⟩
      · rcases List.mem_map.1 h with ⟨x, _, he⟩
        cases he
      · exact absurd (diffAdds_isAdd s ℓ T _ _ h) (by simp [isAddOp])
    · intro m hmem
      have hr : m ∈ remAddrs s T := by
        rcases mem_core_cases ℓ T s hmem with h | h | h | h
        · rcases List.mem_map.1 h with ⟨x, _, he⟩
          cases he
        · rcases List.mem_map.1 h with ⟨x, _, he⟩
          cases he
        · rcases List.mem_map.1 h with ⟨x, hx, he⟩
          injection he with he
          exact he ▸ hx
        · exact absurd (diffAdds_isAdd s ℓ T _ _ h) (by simp [isAddOp])
      rcases remAddrs_interface_kept s T hr with
        ⟨v, i, a, _, _, ha, _, hmsg, _⟩
      exact ⟨a, ha, hmsg.symm⟩

/-- **C7** (witness): a non-VLAN link named `eth0` is filtered out of the
collector's interface output, and the one emitted `RemoveInterface` of a
concrete run refers to a collected interface. -/
theorem claim_C7_witness :
    ∃ i ∈ (⟨[⟨"vps7", 1, 9, 7⟩], [], []⟩ :
      State RawAddr RawRoute).interfaces, i.index = 1 :=
  (claim_C7.2.2.2 5 []
    ⟨[⟨"vps7", 1, 9, 7⟩], [], []⟩).1 1 (by decide)

/-- **C9.** `apply_diff` executes the operations strictly in list order, one
at a time (the first two conjuncts are its recursion equations); on the
first operation that returns an error it returns that error immediately —
all earlier operations remain applied (the state `s₁` reached by the prefix
is the one the failing operation sees) and none of the later operations is
attempted (the result does not depend on `ops₂`); and a successfully applied
prefix composes, so if all operations succeed it returns `Ok`. -/
theorem claim_C9 {σ : Type} (h : Handle σ A R) (route_proto : Nat) :
    (∀ s : σ, apply_diff h route_proto s [] = .ok s) ∧
    (∀ (s : σ) (command : Diff A R) (rest : List (Diff A R)),
      apply_diff h route_proto s (command :: rest) =
        match exec_diff h route_proto s command with
        | .error e => .error e
        | .ok s' => apply_diff h route_proto s' rest) ∧
    (∀ (s s₁ : σ) (ops₁ ops₂ : List (Diff A R)) (op : Diff A R) (e : Error),
      apply_diff h route_proto s ops₁ = .ok s₁ →
      exec_diff h route_proto s₁ op = .error e →
      apply_diff h route_proto s (ops₁ ++ op :: ops₂) = .error e) ∧
    (∀ (s s₁ : σ) (ops₁ ops₂ : List (Diff A R)),
      apply_diff h route_proto s ops₁ = .ok s₁ →
      apply_diff h route_proto s (ops₁ ++ ops₂) =
        apply_diff h route_proto s₁ ops₂) := by
  have hcons : ∀ (s : σ) (c : Diff A R) (rest : List (Diff A R)),
      apply_diff h route_proto s (c :: rest) =
        match exec_diff h route_proto s c with
        | .error e => .error e
        | .ok s' => apply_diff h route_proto s' rest := fun _ _ _ => rfl
  have hseq : ∀ (ops₁ : List (Diff A R)) (s s₁ : σ) (ops₂ : List (Diff A R)),
      apply_diff h route_proto s ops₁ = .ok s₁ →
      apply_diff h route_proto s (ops₁ ++ ops₂) =
        apply_diff h route_proto s₁ ops₂ := by
    intro ops₁
    induction ops₁ with
    | nil =>
        intro s s₁ ops₂ hok
        injection hok with hok
        rw [List.nil_append, hok]
    | cons c rest ih =>
        intro s s₁ ops₂ hok
        rw [List.cons_append]
        rcases he : exec_diff h route_proto s c with e | s'
        · rw [hcons, he] at hok
          cases hok
        · rw [hcons s c rest, he] at hok
          rw [hcons, he]
          exact ih s' s₁ ops₂ hok
  refine ⟨fun s => rfl, fun s command rest => rfl, ?_,
    fun s s₁ ops₁ ops₂ => hseq ops₁ s s₁ ops₂⟩
  intro s s₁ ops₁ ops₂ op e hok herr
  rw [hseq ops₁ s s₁ (op :: ops₂) hok, hcons, herr]

/-- A faithful model implementation of the kernel `Handle`, used to
instantiate the applier: additions append (with a kernel-chosen fresh index
for new links), deletions filter, link deletion of an unknown index and
resolution of an unknown name fail. -/
def model_handle : Handle MState MAddr MRoute where
  link_add s name link vlan :=
    .ok { s with interfaces := s.interfaces ++ [⟨name, freshIndex s, link, vlan⟩] }
  link_del s idx :=
    if s.interfaces.any (fun i => decide (i.index = idx)) then
      .ok { interfaces := s.interfaces.filter (fun i => decide (i.index ≠ idx)),
            addresses := s.addresses.filter (fun a => decide (a.interface ≠ idx)),
            routes := s.routes.filter (fun r => decide (r.interface ≠ idx)) }
    else .error .Io
  address_add s idx addr plen :=
    .ok { s with addresses := s.addresses ++
      [⟨idx, addr, plen, ⟨idx, addr, plen, freshExtra s⟩⟩] }
  address_del s m :=
    .ok { s with addresses := s.addresses.filter (fun a => decide (a.message ≠ m)) }
  route_add s _proto oif dest plen :=
    .ok { s with routes := s.routes ++
      [⟨dest, plen, oif, ⟨oif, dest, plen, freshExtra s⟩⟩] }
  route_del s m :=
    .ok { s with routes := s.routes.filter (fun r => decide (r.message ≠ m)) }
  name_to_index s name :=
    match s.interfaces.find? (fun i => decide (i.name = name)) with
    | some i => .ok i.index
    | none => .error (.InterfaceNotFound name)

/-- **C9** (witness): applying `[AddInterface vps1, AddAddress on vps9,
RemoveInterface 3]` against the model kernel fails at the second operation
(`vps9` does not resolve), returning `InterfaceNotFound` with the first
operation applied and the third never attempted. -/
theorem claim_C9_witness :
    apply_diff model_handle 200 (⟨[], [], []⟩ : MState)
      ([Diff.AddInterface ⟨"vps1", 0, 9, 5⟩] ++
        Diff.AddAddress ⟨IpAddr.v4 11, 31, "vps9"⟩ ::
          [Diff.RemoveInterface 3]) =
      .error (.InterfaceNotFound "vps9") :=
  (claim_C9 model_handle 200).2.2.1 ⟨[], [], []⟩
    ⟨[⟨"vps1", 1, 9, 5⟩], [], []⟩
    [Diff.AddInterface ⟨"vps1", 0, 9, 5⟩] [Diff.RemoveInterface 3]
    (Diff.AddAddress ⟨IpAddr.v4 11, 31, "vps9"⟩)
    (.InterfaceNotFound "vps9") rfl rfl

/-! ## Decimal names round-trip

`format!("vps{}", id)` produces `"vps" ++ Nat.repr id`; the next tick parses
the suffix back with `from_str_radix`.  The following lemmas connect
`Nat.repr` with `Nat.digits` and show the parse inverts the print. -/

theorem toDigitsCore_eq :
    ∀ (fuel n : Nat) (ds : List Char), n < fuel →
      Nat.toDigitsCore 10 fuel n ds =
        (if n = 0 then ['0']
          else (Nat.digits 10 n).reverse.map Nat.digitChar) ++ ds := by
  intro fuel
  induction fuel with
  | zero => intro n ds h; cases h
  | succ fuel ih =>
      intro n ds h
      by_cases h0 : n / 10 = 0
      · have hn10 : n < 10 := (Nat.div_eq_zero_iff (by norm_num)).1 h0
        have hstep : Nat.toDigitsCore 10 (fuel + 1) n ds =
            Nat.digitChar (n % 10) :: ds := by
          show (if n / 10 = 0 then Nat.digitChar (n % 10) :: ds
            else Nat.toDigitsCore 10 fuel (n / 10)
              (Nat.digitChar (n % 10) :: ds)) = _
          rw [if_pos h0]
        rw [hstep]
        by_cases hz : n = 0
        · subst hz
          rfl
        · rw [if_neg hz]
          rw [Nat.digits_def' (by norm_num : (1 : Nat) < 10)
            (Nat.pos_of_ne_zero hz), h0]
          rw [Nat.digits_zero]
          rw [Nat.mod_eq_of_lt hn10]
          rfl
      · have hnz : n ≠ 0 := by
          intro hz
          exact h0 (by rw [hz])
        have hlt : n / 10 < fuel := by
          have h1 : n / 10 < n := Nat.div_lt_self (Nat.pos_of_ne_zero hnz)
            (by norm_num)
          omega
        have hstep : Nat.toDigitsCore 10 (fuel + 1) n ds =
            Nat.toDigitsCore 10 fuel (n / 10)
              (Nat.digitChar (n % 10) :: ds) := by
          show (if n / 10 = 0 then Nat.digitChar (n % 10) :: ds
            else Nat.toDigitsCore 10 fuel (n / 10)
              (Nat.digitChar (n % 10) :: ds)) = _
          rw [if_neg h0]
        rw [hstep, ih (n / 10) _ hlt, if_neg h0, if_neg hnz]
        rw [Nat.digits_def' (by norm_num : (1 : Nat) < 10)
          (Nat.pos_of_ne_zero hnz)]
        rw [List.reverse_cons, List.map_append]
        simp

theorem repr_data (n : Nat) :
    (Nat.repr n).data =
      (if n = 0 then ['0'] else (Nat.digits 10 n).reverse.map Nat.digitChar) := by
  show (Nat.toDigits 10 n).asString.data = _
  unfold Nat.toDigits
  rw [toDigitsCore_eq (n + 1) n [] (Nat.lt_succ_self n)]
  simp [List.asString]

theorem digitChar_spec :
    ∀ d : Nat, d < 10 → (Nat.digitChar d).isDigit = true ∧
      (Nat.digitChar d).toNat - 48 = d := by decide

theorem digitsVal_digits (ds : List Nat) (hds : ∀ d ∈ ds, d < 10) :
    ∀ acc, digitsVal (ds.map Nat.digitChar) acc =
      some (ds.foldl (fun a d => a * 10 + d) acc) := by
  induction ds with
  | nil => intro acc; rfl
  | cons d rest ih =>
      intro acc
      have hd := digitChar_spec d (hds d (List.mem_cons_self d rest))
      rw [List.map_cons, List.foldl_cons]
      show (if (Nat.digitChar d).isDigit then
        digitsVal (rest.map Nat.digitChar)
          (acc * 10 + ((Nat.digitChar d).toNat - 48)) else none) = _
      rw [hd.1, if_pos rfl, hd.2]
      exact ih (fun x hx => hds x (List.mem_cons_of_mem d hx)) _

theorem foldl_reverse_ofDigits (L : List Nat) :
    ∀ acc : Nat, (L.reverse).foldl (fun a d => a * 10 + d) acc =
      acc * 10 ^ L.length + Nat.ofDigits 10 L := by
  induction L with
  | nil => intro acc; simp [Nat.ofDigits_nil]
  | cons x xs ih =>
      intro acc
      rw [List.reverse_cons, List.foldl_append, ih acc, List.foldl_cons,
        List.foldl_nil, Nat.ofDigits_cons, List.length_cons]
      ring

theorem digitsVal_repr (n : Nat) : digitsVal (Nat.repr n).data 0 = some n := by
  rw [repr_data]
  by_cases hz : n = 0
  · subst hz
    rfl
  · rw [if_neg hz]
    rw [digitsVal_digits _ (fun d hd => Nat.digits_lt_base (by norm_num)
      (List.mem_reverse.1 hd)) 0]
    rw [foldl_reverse_ofDigits, Nat.ofDigits_digits]
    simp

theorem repr_head_digit (n : Nat) :
    ∃ c t, (Nat.repr n).data = c :: t ∧ c.isDigit = true := by
  rw [repr_data]
  by_cases hz : n = 0
  · exact ⟨'0', [], by rw [if_pos hz], by decide⟩
  · rw [if_neg hz]
    have hne : (Nat.digits 10 n).reverse ≠ [] := by
      simp [Nat.digits_ne_nil_iff_ne_zero, hz]
    rcases List.exists_cons_of_ne_nil hne with ⟨d, L, hdL⟩
    refine ⟨Nat.digitChar d, L.map Nat.digitChar, by rw [hdL]; rfl, ?_⟩
    have hdlt : d < 10 := Nat.digits_lt_base (by norm_num)
      (List.mem_reverse.1 (hdL ▸ List.mem_cons_self d L))
    exact (digitChar_spec d hdlt).1

theorem from_str_radix_repr (n : Nat) :
    from_str_radix_10 (Nat.repr n).data =
      if n < 2 ^ 64 then some n else none := by
  rcases repr_head_digit n with ⟨c, t, hct, hdig⟩
  have hcplus : c ≠ '+' := by
    intro hc
    rw [hc] at hdig
    cases hdig
  rw [hct]
  unfold from_str_radix_10
  have hmatch : (match (c :: t : List Char) with
      | '+' :: rest => rest
      | cs => cs) = c :: t := by
    split
    · next rest heq =>
        injection heq with h1 _
        exact absurd h1 hcplus
    · rfl
  rw [hmatch]
  have hval : digitsVal (c :: t) 0 = some n := by
    rw [← hct]
    exact digitsVal_repr n
  show (match digitsVal (c :: t) 0 with
    | none => none
    | some v => if v < 2 ^ 64 then some v else none) =
    if n < 2 ^ 64 then some n else none
  rw [hval]

theorem vpsName_data (k : Nat) :
    (vpsName k).data = 'v' :: 'p' :: 's' :: (Nat.repr k).data := by
  show ("vps" ++ toString k).data = _
  rw [String.data_append]
  rfl

theorem vpsName_inj {k₁ k₂ : Nat} (h : vpsName k₁ = vpsName k₂) : k₁ = k₂ := by
  have hd := congrArg String.data h
  rw [vpsName_data, vpsName_data] at hd
  simp only [List.cons.injEq, true_and] at hd
  have : (Nat.repr k₁).data = (Nat.repr k₂).data := hd
  have h1 := digitsVal_repr k₁
  rw [this, digitsVal_repr k₂] at h1
  injection h1 with h1
  exact h1.symm

theorem name_suffix_vpsName {k : Nat} (hk : k < 2 ^ 64) :
    name_suffix_num (vpsName k) = k := by
  unfold name_suffix_num
  rw [vpsName_data]
  rw [show ('v' :: 'p' :: 's' :: (Nat.repr k).data).drop 3 =
    (Nat.repr k).data from rfl]
  rw [from_str_radix_repr, if_pos hk]
  rfl

theorem repr_len_bound {m : Nat} (h : (Nat.repr m).data.length ≤ 12) :
    m < 10 ^ 12 := by
  by_cases hz : m = 0
  · subst hz
    norm_num
  · rw [repr_data, if_neg hz, List.length_map, List.length_reverse,
      Nat.digits_len 10 m (by norm_num) hz] at h
    exact (Nat.lt_pow_iff_log_lt (by norm_num) hz).2 (by omega)

/-- A name of a collected interface (at most 15 bytes) that prints as
`vps<m>` has numeric suffix exactly `m`. -/
theorem suffix_of_eq_vpsName {name : String} {m : Nat}
    (heq : name = vpsName m) (hlen : name.length ≤ 15) :
    name_suffix_num name = m := by
  subst heq
  have hlen' : (Nat.repr m).data.length ≤ 12 := by
    have : (vpsName m).length = 3 + (Nat.repr m).data.length := by
      show (vpsName m).data.length = _
      rw [vpsName_data]
      simp only [List.length_cons]
      omega
    omega
  exact name_suffix_vpsName (lt_trans (repr_len_bound hlen') (by norm_num))

/-! ## Generic list utilities for the convergence proof -/

theorem find?_eq_some_of_unique {α : Type} {l : List α} {p : α → Bool} {a : α}
    (ha : a ∈ l) (hp : p a = true) (huniq : ∀ b ∈ l, p b = true → b = a) :
    l.find? p = some a := by
  induction l with
  | nil => cases ha
  | cons x xs ih =>
      by_cases hx : p x = true
      · rw [List.find?_cons_of_pos _ hx,
          huniq x (List.mem_cons_self x xs) hx]
      · rw [List.find?_cons_of_neg _ (by simpa using hx)]
        rcases List.mem_cons.1 ha with h | h
        · subst h
          exact absurd hp hx
        · exact ih h (fun b hb hpb => huniq b (List.mem_cons_of_mem x hb) hpb)

theorem mem_eq_of_map_nodup {α β : Type} {l : List α} {f : α → β}
    (hnd : (l.map f).Nodup) {a b : α} (ha : a ∈ l) (hb : b ∈ l)
    (hf : f a = f b) : a = b := by
  induction l with
  | nil => cases ha
  | cons x xs ih =>
      rw [List.map_cons, List.nodup_cons] at hnd
      rcases List.mem_cons.1 ha with h1 | h1 <;>
        rcases List.mem_cons.1 hb with h2 | h2
      · rw [h1, h2]
      · exfalso
        apply hnd.1
        rw [h1] at hf
        rw [hf]
        exact List.mem_map_of_mem f h2
      · exfalso
        apply hnd.1
        rw [h2] at hf
        rw [← hf]
        exact List.mem_map_of_mem f h1
      · exact ih hnd.2 h1 h2

theorem map_eq_map_mem {α β γ : Type} {l₁ : List α} {l₂ : List β}
    {g : α → γ} {h : β → γ} (he : l₁.map g = l₂.map h) :
    (∀ b ∈ l₂, ∃ a ∈ l₁, g a = h b) ∧ (∀ a ∈ l₁, ∃ b ∈ l₂, g a = h b) := by
  constructor
  · intro b hb
    have : h b ∈ l₁.map g := by
      rw [he]
      exact List.mem_map_of_mem h hb
    rcases List.mem_map.1 this with ⟨a, ha, hg⟩
    exact ⟨a, ha, hg⟩
  · intro a ha
    have : g a ∈ l₂.map h := by
      rw [← he]
      exact List.mem_map_of_mem g ha
    rcases List.mem_map.1 this with ⟨b, hb, hg⟩
    exact ⟨b, hb, hg.symm⟩

/-! ## The model effect of the three removal phases -/

theorem filter_filter_not_mem_cons {α β : Type} [DecidableEq β] (l : List α)
    (f : α → β) (x : β) (xs : List β) :
    (l.filter (fun a => decide (f a ≠ x))).filter
        (fun a => decide (f a ∉ xs)) =
      l.filter (fun a => decide (f a ∉ x :: xs)) := by
  rw [List.filter_filter]
  apply List.filter_congr
  intro a _
  simp only [List.mem_cons, not_or]
  by_cases h1 : f a = x <;> by_cases h2 : f a ∈ xs <;> simp [h1, h2]

theorem apply_RI (idxs : List Nat) :
    ∀ s : MState, applyOnModel s (idxs.map Diff.RemoveInterface) =
      ⟨s.interfaces.filter (fun i => decide (i.index ∉ idxs)),
       s.addresses.filter (fun a => decide (a.interface ∉ idxs)),
       s.routes.filter (fun r => decide (r.interface ∉ idxs))⟩ := by
  induction idxs with
  | nil =>
      intro s
      show s = _
      simp
  | cons idx rest ih =>
      intro s
      show applyOnModel (applyOp s (Diff.RemoveInterface idx))
        (rest.map Diff.RemoveInterface) = _
      rw [show applyOp s (Diff.RemoveInterface idx) =
        ⟨s.interfaces.filter (fun i => decide (i.index ≠ idx)),
         s.addresses.filter (fun a => decide (a.interface ≠ idx)),
         s.routes.filter (fun r => decide (r.interface ≠ idx))⟩ from rfl]
      rw [ih]
      rw [filter_filter_not_mem_cons s.interfaces (fun i => i.index) idx rest,
        filter_filter_not_mem_cons s.addresses (fun a => a.interface) idx rest,
        filter_filter_not_mem_cons s.routes (fun r => r.interface) idx rest]

theorem apply_RR (msgs : List MRoute) :
    ∀ s : MState, applyOnModel s (msgs.map Diff.RemoveRoute) =
      { s with routes := s.routes.filter (fun r => decide (r.message ∉ msgs)) } := by
  induction msgs with
  | nil =>
      intro s
      show s = _
      simp
  | cons m rest ih =>
      intro s
      show applyOnModel (applyOp s (Diff.RemoveRoute m))
        (rest.map Diff.RemoveRoute) = _
      rw [show applyOp s (Diff.RemoveRoute m) =
        { s with routes := s.routes.filter (fun r => decide (r.message ≠ m)) }
        from rfl]
      rw [ih]
      congr 1
      exact filter_filter_not_mem_cons s.routes (fun r => r.message) m rest

theorem apply_RA (msgs : List MAddr) :
    ∀ s : MState, applyOnModel s (msgs.map Diff.RemoveAddress) =
      { s with addresses :=
          s.addresses.filter (fun a => decide (a.message ∉ msgs)) } := by
  induction msgs with
  | nil =>
      intro s
      show s = _
      simp
  | cons m rest ih =>
      intro s
      show applyOnModel (applyOp s (Diff.RemoveAddress m))
        (rest.map Diff.RemoveAddress) = _
      rw [show applyOp s (Diff.RemoveAddress m) =
        { s with addresses :=
            s.addresses.filter (fun a => decide (a.message ≠ m)) } from rfl]
      rw [ih]
      congr 1
      exact filter_filter_not_mem_cons s.addresses (fun a => a.message) m rest

theorem applyOnModel_append (s : MState) (l₁ l₂ : List (Diff MAddr MRoute)) :
    applyOnModel s (l₁ ++ l₂) = applyOnModel (applyOnModel s l₁) l₂ :=
  List.foldl_append _ _ _ _

/-! ## The model effect of a block of additions targeting one name -/

/-- The `AddAddress` payloads of an operation list. -/
def addAddrOps (ops : List (Diff A R)) : List AddAddressOp :=
  ops.filterMap fun d =>
    match d with
    | .AddAddress a => some a
    | _ => none

/-- The `AddRoute` payloads of an operation list. -/
def addRouteOps (ops : List (Diff A R)) : List AddRouteOp :=
  ops.filterMap fun d =>
    match d with
    | .AddRoute r => some r
    | _ => none

theorem resolveName_congr {c c' : MState} (h : c'.interfaces = c.interfaces)
    (η : String) : resolveName c' η = resolveName c η := by
  unfold resolveName
  rw [h]

theorem apply_group (group : List (Diff MAddr MRoute)) :
    ∀ (c : MState) (η : String) (ι : Nat),
      resolveName c η = some ι →
      (∀ d ∈ group, addTargetName d = some η) →
      ∃ (extraA : List (Address MAddr)) (extraR : List (Route MRoute)),
        applyOnModel c group =
          ⟨c.interfaces, c.addresses ++ extraA, c.routes ++ extraR⟩ ∧
        extraA.map (fun a => (a.interface, a.address, a.prefix_length)) =
          (addAddrOps group).map (fun op => (ι, op.address, op.prefix_length)) ∧
        extraR.map (fun r =>
            (r.interface, r.destination, r.destination_prefix_length)) =
          (addRouteOps group).map (fun op =>
            (ι, op.destination, op.destination_prefix_length)) := by
  induction group with
  | nil =>
      intro c η ι hres htgt
      exact ⟨[], [], by simp [applyOnModel], by simp [addAddrOps],
        by simp [addRouteOps]⟩
  | cons d rest ih =>
      intro c η ι hres htgt
      have hd := htgt d (List.mem_cons_self d rest)
      cases d with
      | AddAddress a =>
          injection hd with hd
          have hstep : applyOp c (Diff.AddAddress a) =
              ⟨c.interfaces, c.addresses ++
                [⟨ι, a.address, a.prefix_length,
                  ⟨ι, a.address, a.prefix_length, freshExtra c⟩⟩],
                c.routes⟩ := by
            simp [applyOp, hd, hres]
          rcases ih (⟨c.interfaces, c.addresses ++
              [⟨ι, a.address, a.prefix_length,
                ⟨ι, a.address, a.prefix_length, freshExtra c⟩⟩],
              c.routes⟩ : MState) η ι
              ((resolveName_congr rfl η).trans hres)
              (fun x hx => htgt x (List.mem_cons_of_mem _ hx)) with
            ⟨eA, eR, happ, hA, hR⟩
          refine ⟨(⟨ι, a.address, a.prefix_length,
              ⟨ι, a.address, a.prefix_length, freshExtra c⟩⟩ : Address MAddr) ::
              eA, eR, ?_, ?_, ?_⟩
          · show applyOnModel (applyOp c (Diff.AddAddress a)) rest = _
            rw [hstep, happ]
            rw [List.append_assoc]
            rfl
          · rw [List.map_cons, hA]
            rfl
          · rw [hR]
            rfl
      | AddRoute r =>
          injection hd with hd
          have hstep : applyOp c (Diff.AddRoute r) =
              ⟨c.interfaces, c.addresses, c.routes ++
                [⟨r.destination, r.destination_prefix_length, ι,
                  ⟨ι, r.destination, r.destination_prefix_length,
                    freshExtra c⟩⟩]⟩ := by
            simp [applyOp, hd, hres]
          rcases ih (⟨c.interfaces, c.addresses, c.routes ++
              [⟨r.destination, r.destination_prefix_length, ι,
                ⟨ι, r.destination, r.destination_prefix_length,
                  freshExtra c⟩⟩]⟩ : MState) η ι
              ((resolveName_congr rfl η).trans hres)
              (fun x hx => htgt x (List.mem_cons_of_mem _ hx)) with
            ⟨eA, eR, happ, hA, hR⟩
          refine ⟨eA, (⟨r.destination, r.destination_prefix_length, ι,
              ⟨ι, r.destination, r.destination_prefix_length, freshExtra c⟩⟩ :
              Route MRoute) :: eR, ?_, ?_, ?_⟩
          · show applyOnModel (applyOp c (Diff.AddRoute r)) rest = _
            rw [hstep, happ]
            rw [List.append_assoc]
            rfl
          · rw [hA]
            rfl
          · rw [List.map_cons, hR]
            rfl
      | AddInterface i => cases hd
      | RemoveInterface idx => cases hd
      | RemoveAddress m => cases hd
      | RemoveRoute m => cases hd

/-! ## Views of the per-spec matching functions -/

/-- The public v4 addresses of a spec, as a plain list. -/
def publicsOf (v : VPS) : List Nat :=
  match v.v4_public with
  | some public_v4 => public_v4.as_many
  | none => []

/-- A route satisfies some requirement of the spec: it is a `/32` host route
to one of the public v4 addresses, or the `/64` route to the v6 prefix. -/
def RouteFits (v : VPS) (r : Route R) : Prop :=
  (∃ d, r.destination = IpAddr.v4 d ∧ d ∈ publicsOf v ∧
    r.destination_prefix_length = 32) ∨
  (r.destination = IpAddr.v6 v.v6_pfx ∧ r.destination_prefix_length = 64)

theorem publicsOf_mem {v : VPS} {d : Nat} (h : d ∈ publicsOf v) :
    ∃ pv, v.v4_public = some pv ∧ d ∈ pv.as_many := by
  unfold publicsOf at h
  match hpv : v.v4_public with
  | none =>
      rw [hpv] at h
      exact absurd h (by simp)
  | some pv =>
      rw [hpv] at h
      exact ⟨pv, rfl, h⟩

theorem findInf_mem_vlan {s : State A R} {v : VPS} {i : Interface}
    (h : findInf s v = some i) : i ∈ s.interfaces ∧ i.vlan = v.vlan :=
  ⟨List.mem_of_find?_eq_some h, by simpa using List.find?_some h⟩

theorem goodAddr_iff (v : VPS) (a : Address A) :
    goodAddr v a = true ↔
      a.address = IpAddr.v4 v.v4_addr ∧ a.prefix_length = 31 := by
  simp [goodAddr]

theorem badMsg_some_fields {v : VPS} {a : Address A} {m : A}
    (h : badMsg v a = some m) :
    m = a.message ∧ ∃ d, a.address = IpAddr.v4 d ∧
      ¬(v.v4_addr = d ∧ a.prefix_length = 31) := by
  unfold badMsg at h
  split at h
  · next d hd =>
      split at h
      · cases h
      · next hng =>
          injection h with h
          exact ⟨h.symm, d, hd, hng⟩
  · cases h

theorem badMsg_of_bad {v : VPS} {a : Address A} {d : Nat}
    (hd : a.address = IpAddr.v4 d)
    (hbad : ¬(v.v4_addr = d ∧ a.prefix_length = 31)) :
    badMsg v a = some a.message := by
  unfold badMsg
  rw [hd]
  simp [hbad]

theorem badMsg_none_good {v : VPS} {a : Address A}
    (h : badMsg v a = none) {d : Nat} (hd : a.address = IpAddr.v4 d) :
    v.v4_addr = d ∧ a.prefix_length = 31 := by
  by_contra hc
  rw [badMsg_of_bad hd hc] at h
  cases h

theorem keptMsg_some {v : VPS} {r : Route R} {m : R}
    (h : keptMsg v r = some m) : m = r.message ∧ RouteFits v r := by
  unfold keptMsg at h
  split at h
  · next d hd =>
      split at h
      · next pv hp =>
          split at h
          · next hc =>
              injection h with h
              refine ⟨h.symm, Or.inl ⟨d, hd, ?_, hc.2⟩⟩
              unfold publicsOf
              rw [hp]
              exact hc.1
          · cases h
      · cases h
  · next d hd =>
      split at h
      · next hc =>
          injection h with h
          exact ⟨h.symm, Or.inr ⟨by rw [hd, hc.1], hc.2⟩⟩
      · cases h

theorem keptMsg_of_fits {v : VPS} {r : Route R} (h : RouteFits v r) :
    keptMsg v r = some r.message := by
  rcases h with ⟨d, hd, hp, hl⟩ | ⟨hd, hl⟩
  · unfold keptMsg
    rw [hd]
    show (match v.v4_public with
      | some public_v4 =>
          if d ∈ public_v4.as_many ∧ r.destination_prefix_length = 32 then
            some r.message else none
      | none => none) = some r.message
    rcases publicsOf_mem hp with ⟨pv, hpv, hmem⟩
    rw [hpv]
    simp [hmem, hl]
  · unfold keptMsg
    rw [hd]
    show (if v.v6_pfx = v.v6_pfx ∧ r.destination_prefix_length = 64 then
      some r.message else none) = some r.message
    simp [hl]

theorem destMatch_some {v : VPS} {r : Route R} {p : Nat}
    (h : destMatch v r = some p) :
    r.destination = IpAddr.v4 p ∧ p ∈ publicsOf v ∧
      r.destination_prefix_length = 32 := by
  unfold destMatch at h
  split at h
  · next d hd =>
      split at h
      · next pv hp =>
          split at h
          · next hc =>
              injection h with h
              subst h
              exact ⟨hd, by unfold publicsOf; rw [hp]; exact hc.1, hc.2⟩
          · cases h
      · cases h
  · cases h

theorem destMatch_of {v : VPS} {r : Route R} {p : Nat}
    (hd : r.destination = IpAddr.v4 p) (hp : p ∈ publicsOf v)
    (hl : r.destination_prefix_length = 32) : destMatch v r = some p := by
  unfold publicsOf at hp
  unfold destMatch
  rw [hd]
  rcases hv : v.v4_public with _ | pv <;> rw [hv] at hp
  · cases hp
  · simp [hp, hl]

theorem v6Match_true {v : VPS} {r : Route R} (h : v6Match v r = true) :
    r.destination = IpAddr.v6 v.v6_pfx ∧
      r.destination_prefix_length = 64 := by
  unfold v6Match at h
  split at h
  · next d hd =>
      simp only [decide_eq_true_eq] at h
      exact ⟨by rw [hd, h.1], h.2⟩
  · cases h

theorem v6Match_of {v : VPS} {r : Route R}
    (hd : r.destination = IpAddr.v6 v.v6_pfx)
    (hl : r.destination_prefix_length = 64) : v6Match v r = true := by
  unfold v6Match
  rw [hd]
  simp [hl]

/-! ## Membership views of the accumulated sets -/

theorem keepIdxs_spec (s : State A R) (T : List VPS) (idx : Nat) :
    idx ∈ keepIdxs s T ↔
      ∃ w ∈ T, ∃ iw, findInf s w = some iw ∧ iw.index = idx := by
  unfold keepIdxs
  rw [List.mem_filterMap]
  constructor
  · rintro ⟨w, hw, hmap⟩
    rcases hf : findInf s w with _ | iw <;> rw [hf] at hmap
    · cases hmap
    · injection hmap with hmap
      exact ⟨w, hw, iw, hf, hmap⟩
  · rintro ⟨w, hw, iw, hf, hidx⟩
    exact ⟨w, hw, by rw [hf, Option.map_some', hidx]⟩

theorem keepRts_spec (s : State A R) (T : List VPS) (m : R) :
    m ∈ keepRts s T ↔
      ∃ w ∈ T, ∃ iw, findInf s w = some iw ∧
        ∃ r₂ ∈ s.routes, r₂.interface = iw.index ∧ keptMsg w r₂ = some m := by
  unfold keepRts
  rw [List.mem_flatMap]
  constructor
  · rintro ⟨w, hw, hmem⟩
    rcases hf : findInf s w with _ | iw <;> rw [hf] at hmem
    · cases hmem
    · rcases List.mem_filterMap.1 hmem with ⟨r₂, hr₂, hk⟩
      rcases List.mem_filter.1 hr₂ with ⟨hr₂m, hr₂i⟩
      exact ⟨w, hw, iw, hf, r₂, hr₂m, by simpa using hr₂i, hk⟩
  · rintro ⟨w, hw, iw, hf, r₂, hr₂, hint, hk⟩
    refine ⟨w, hw, ?_⟩
    rw [hf]
    exact List.mem_filterMap.2 ⟨r₂,
      List.mem_filter.2 ⟨hr₂, by simpa using hint⟩, hk⟩

theorem remAddrs_spec (s : State A R) (T : List VPS) (m : A) :
    m ∈ remAddrs s T ↔
      ∃ w ∈ T, ∃ iw, findInf s w = some iw ∧
        ∃ b ∈ s.addresses, b.interface = iw.index ∧ badMsg w b = some m := by
  unfold remAddrs
  rw [List.mem_flatMap]
  constructor
  · rintro ⟨w, hw, hmem⟩
    rcases hf : findInf s w with _ | iw <;> rw [hf] at hmem
    · cases hmem
    · rcases List.mem_filterMap.1 hmem with ⟨b, hb, hk⟩
      rcases List.mem_filter.1 hb with ⟨hbm, hbi⟩
      exact ⟨w, hw, iw, hf, b, hbm, by simpa using hbi, hk⟩
  · rintro ⟨w, hw, iw, hf, b, hb, hint, hk⟩
    refine ⟨w, hw, ?_⟩
    rw [hf]
    exact List.mem_filterMap.2 ⟨b,
      List.mem_filter.2 ⟨hb, by simpa using hint⟩, hk⟩

/-! ## Structure of the per-tenant addition groups -/

/-- `newAdds` minus its leading `AddInterface`. -/
def newAddsTail (v : VPS) (name : String) : List (Diff A R) :=
  [Diff.AddAddress ⟨.v4 v.v4_addr, 31, name⟩]
  ++ (match v.v4_public with
      | some public_v4 =>
          public_v4.as_many.map (fun p => Diff.AddRoute ⟨.v4 p, 32, name⟩)
      | none => [])
  ++ [Diff.AddRoute ⟨.v6 v.v6_pfx, 64, name⟩]

theorem newAdds_cons (ℓ : Nat) (v : VPS) (name : String) :
    (newAdds ℓ v name : List (Diff A R)) =
      Diff.AddInterface ⟨name, 0, ℓ, v.vlan⟩ :: newAddsTail v name := rfl

theorem newAddsTail_targets (v : VPS) (name : String) :
    ∀ d ∈ (newAddsTail v name : List (Diff A R)),
      addTargetName d = some name := by
  intro d hd
  unfold newAddsTail at hd
  rcases List.mem_append.1 hd with hd | hd
  · rcases List.mem_append.1 hd with hd | hd
    · simp only [List.mem_singleton] at hd
      subst hd
      rfl
    · rcases hp : v.v4_public with _ | pv <;> rw [hp] at hd
      · simp at hd
      · rcases List.mem_map.1 hd with ⟨x, _, hx⟩
        subst hx
        rfl
  · simp only [List.mem_singleton] at hd
    subst hd
    rfl

theorem matchedAdds_targets (v : VPS) (i : Interface) (b4 : Bool)
    (F : List Nat) (b6 : Bool) :
    ∀ d ∈ (matchedAdds v i b4 F b6 : List (Diff A R)),
      addTargetName d = some i.name := by
  intro d hd
  unfold matchedAdds at hd
  rcases List.mem_append.1 hd with hd | hd
  · rcases List.mem_append.1 hd with hd | hd
    · cases b4
      · simp only [Bool.false_eq_true, if_neg, List.mem_singleton,
          if_false] at hd
        subst hd
        rfl
      · simp at hd
    · rcases hp : v.v4_public with _ | pv <;> rw [hp] at hd
      · simp at hd
      · rcases List.mem_map.1 hd with ⟨x, _, hx⟩
        subst hx
        rfl
  · cases b6
    · simp only [Bool.false_eq_true, if_neg, List.mem_singleton,
        if_false] at hd
      subst hd
      rfl
    · simp at hd

theorem filterMap_all_some {α β : Type} {f : α → Option β} {g : α → β}
    (h : ∀ x, f x = some (g x)) (l : List α) : l.filterMap f = l.map g := by
  induction l with
  | nil => rfl
  | cons x xs ih => rw [List.filterMap_cons, h x, List.map_cons, ih]

theorem addAddrOps_newAddsTail (v : VPS) (name : String) :
    addAddrOps (newAddsTail v name : List (Diff A R)) =
      [⟨.v4 v.v4_addr, 31, name⟩] := by
  rcases hp : v.v4_public with _ | pv <;>
    simp [addAddrOps, newAddsTail, hp, List.filterMap_eq_nil_iff]

theorem addRouteOps_newAddsTail (v : VPS) (name : String) :
    addRouteOps (newAddsTail v name : List (Diff A R)) =
      (publicsOf v).map (fun p => ⟨.v4 p, 32, name⟩) ++
        [⟨.v6 v.v6_pfx, 64, name⟩] := by
  rcases hp : v.v4_public with _ | pv <;>
    simp [addRouteOps, newAddsTail, publicsOf, hp, List.filterMap_map,
      Function.comp] <;>
    exact filterMap_all_some (fun x => rfl) _

theorem addAddrOps_matchedAdds (v : VPS) (i : Interface) (b4 : Bool)
    (F : List Nat) (b6 : Bool) :
    addAddrOps (matchedAdds v i b4 F b6 : List (Diff A R)) =
      if b4 then [] else [⟨.v4 v.v4_addr, 31, i.name⟩] := by
  cases b4 <;> cases b6 <;> rcases hp : v.v4_public with _ | pv <;>
    simp [addAddrOps, matchedAdds, hp, List.filterMap_eq_nil_iff]

theorem addRouteOps_matchedAdds (v : VPS) (i : Interface) (b4 : Bool)
    (F : List Nat) (b6 : Bool) :
    addRouteOps (matchedAdds v i b4 F b6 : List (Diff A R)) =
      ((publicsOf v).filter (fun p => decide (p ∉ F))).map
        (fun p => ⟨.v4 p, 32, i.name⟩) ++
      (if b6 then [] else [⟨.v6 v.v6_pfx, 64, i.name⟩]) := by
  cases b4 <;> cases b6 <;> rcases hp : v.v4_public with _ | pv <;>
    simp [addRouteOps, matchedAdds, publicsOf, hp, List.filterMap_map,
      Function.comp] <;>
    exact filterMap_all_some (fun x => rfl) _

/-! ## Kernel index freshness -/

/-- Every kernel index mentioned anywhere in the snapshot. -/
def idxAll (c : MState) : List Nat :=
  (c.interfaces.map (fun i => i.index) ++
    c.addresses.map (fun a => a.interface)) ++
    c.routes.map (fun r => r.interface)

theorem freshIndex_eq (c : MState) :
    freshIndex c = (idxAll c).foldl Nat.max 0 + 1 := rfl

theorem idxAll_lt_freshIndex (c : MState) :
    ∀ x ∈ idxAll c, x < freshIndex c := by
  intro x hx
  rw [freshIndex_eq]
  exact Nat.lt_succ_of_le (mem_le_foldl_max _ 0 x hx)

theorem mem_idxAll_of_interface {c : MState} {i : Interface}
    (h : i ∈ c.interfaces) : i.index ∈ idxAll c :=
  List.mem_append_left _ (List.mem_append_left _
    (List.mem_map_of_mem _ h))

theorem mem_idxAll_of_address {c : MState} {a : Address MAddr}
    (h : a ∈ c.addresses) : a.interface ∈ idxAll c :=
  List.mem_append_left _ (List.mem_append_right _
    (List.mem_map_of_mem _ h))

theorem mem_idxAll_of_route {c : MState} {r : Route MRoute}
    (h : r ∈ c.routes) : r.interface ∈ idxAll c :=
  List.mem_append_right _ (List.mem_map_of_mem _ h)

theorem idxAll_subset {c c₂ : MState} {e₁ : List Interface}
    {e₂ : List (Address MAddr)} {e₃ : List (Route MRoute)}
    (h1 : c₂.interfaces = c.interfaces ++ e₁)
    (h2 : c₂.addresses = c.addresses ++ e₂)
    (h3 : c₂.routes = c.routes ++ e₃) :
    ∀ x ∈ idxAll c, x ∈ idxAll c₂ := by
  intro x hx
  unfold idxAll at hx ⊢
  rw [h1, h2, h3, List.map_append, List.map_append, List.map_append]
  rcases List.mem_append.1 hx with hx | hx
  · rcases List.mem_append.1 hx with hx | hx
    · exact List.mem_append_left _ (List.mem_append_left _
        (List.mem_append_left _ hx))
    · exact List.mem_append_left _ (List.mem_append_right _
        (List.mem_append_left _ hx))
  · exact List.mem_append_right _ (List.mem_append_left _ hx)

theorem mem_idxAll {c : MState} {x : Nat} :
    x ∈ idxAll c ↔ (∃ i ∈ c.interfaces, i.index = x) ∨
      (∃ a ∈ c.addresses, a.interface = x) ∨
      ∃ r ∈ c.routes, r.interface = x := by
  unfold idxAll
  constructor
  · intro h
    rcases List.mem_append.1 h with h | h
    · rcases List.mem_append.1 h with h | h
      · rcases List.mem_map.1 h with ⟨i, hi, hx⟩
        exact Or.inl ⟨i, hi, hx⟩
      · rcases List.mem_map.1 h with ⟨a, ha, hx⟩
        exact Or.inr (Or.inl ⟨a, ha, hx⟩)
    · rcases List.mem_map.1 h with ⟨r, hr, hx⟩
      exact Or.inr (Or.inr ⟨r, hr, hx⟩)
  · rintro (⟨i, hi, hx⟩ | ⟨a, ha, hx⟩ | ⟨r, hr, hx⟩)
    · exact List.mem_append_left _ (List.mem_append_left _
        (List.mem_map.2 ⟨i, hi, hx⟩))
    · exact List.mem_append_left _ (List.mem_append_right _
        (List.mem_map.2 ⟨a, ha, hx⟩))
    · exact List.mem_append_right _ (List.mem_map.2 ⟨r, hr, hx⟩)

theorem resolveName_of_mem {c : MState} {i : Interface}
    (hnames : (c.interfaces.map (fun i => i.name)).Nodup)
    (hi : i ∈ c.interfaces) : resolveName c i.name = some i.index := by
  unfold resolveName
  rw [find?_eq_some_of_unique hi (by simp)
    (fun b hb hpb =>
      mem_eq_of_map_nodup hnames hb hi (by simpa using hpb))]
  rfl

theorem resolveName_appended {c : MState} {i : Interface}
    (hni : ∀ b ∈ c.interfaces, b.name ≠ i.name) :
    resolveName ⟨c.interfaces ++ [i], c.addresses, c.routes⟩ i.name =
      some i.index := by
  unfold resolveName
  rw [show (⟨c.interfaces ++ [i], c.addresses, c.routes⟩ :
      MState).interfaces = c.interfaces ++ [i] from rfl]
  rw [List.find?_append]
  rw [List.find?_eq_none.2 (fun b hb => by simpa using hni b hb)]
  simp

/-! ## The model effect of the whole addition queue

`apply_diffAdds` below applies the accumulated `Add*` queue of one tick to a
snapshot and characterises the result: the pre-existing entries are
untouched, the new interfaces carry exactly the unmatched VLANs on fresh
pairwise-distinct kernel indices, every queued address/route lands on the
kernel index of its target interface, and conversely every appended entry is
accounted for by some tenant.  `AddsOut` packages those facts. -/

structure AddsOut (s : MState) (T₂ : List VPS) (c : MState)
    (news : List Interface) (extraA : List (Address MAddr))
    (extraR : List (Route MRoute)) : Prop where
  vlans : news.map (fun i => i.vlan) =
    (T₂.filter (fun v => (findInf s v).isNone)).map (fun v => v.vlan)
  idx_nodup : (news.map (fun i => i.index)).Nodup
  idx_fresh : ∀ i' ∈ news, i'.index ∉ idxAll c
  m_addr : ∀ v ∈ T₂, ∀ i, findInf s v = some i →
    (addrsOn s i.index).any (goodAddr v) = false →
    ∃ a ∈ extraA, a.interface = i.index ∧
      a.address = IpAddr.v4 v.v4_addr ∧ a.prefix_length = 31
  m_pub : ∀ v ∈ T₂, ∀ i, findInf s v = some i → ∀ p ∈ publicsOf v,
    p ∉ (routesOn s i.index).filterMap (destMatch v) →
    ∃ r ∈ extraR, r.interface = i.index ∧
      r.destination = IpAddr.v4 p ∧ r.destination_prefix_length = 32
  m_v6 : ∀ v ∈ T₂, ∀ i, findInf s v = some i →
    (routesOn s i.index).any (v6Match v) = false →
    ∃ r ∈ extraR, r.interface = i.index ∧
      r.destination = IpAddr.v6 v.v6_pfx ∧ r.destination_prefix_length = 64
  u_all : ∀ v ∈ T₂, findInf s v = none →
    ∃ i' ∈ news, i'.vlan = v.vlan ∧
      (∃ a ∈ extraA, a.interface = i'.index ∧
        a.address = IpAddr.v4 v.v4_addr ∧ a.prefix_length = 31) ∧
      (∀ p ∈ publicsOf v, ∃ r ∈ extraR, r.interface = i'.index ∧
        r.destination = IpAddr.v4 p ∧ r.destination_prefix_length = 32) ∧
      (∃ r ∈ extraR, r.interface = i'.index ∧
        r.destination = IpAddr.v6 v.v6_pfx ∧
        r.destination_prefix_length = 64)
  sound_a : ∀ a ∈ extraA, a.prefix_length = 31 ∧ ∃ v ∈ T₂,
    a.address = IpAddr.v4 v.v4_addr ∧
    ((∃ i, findInf s v = some i ∧ a.interface = i.index) ∨
     (findInf s v = none ∧ ∃ i' ∈ news, i'.vlan = v.vlan ∧
       a.interface = i'.index))
  sound_r : ∀ r ∈ extraR, ∃ v ∈ T₂, RouteFits v r ∧
    ((∃ i, findInf s v = some i ∧ r.interface = i.index) ∨
     (findInf s v = none ∧ ∃ i' ∈ news, i'.vlan = v.vlan ∧
       r.interface = i'.index))

set_option maxHeartbeats 1600000 in
theorem apply_diffAdds (s : MState) (ℓ : Nat) :
    ∀ (T₂ : List VPS) (n : Nat) (c : MState),
      (c.interfaces.map (fun i => i.name)).Nodup →
      (∀ m, n ≤ m → vpsName m ∉ c.interfaces.map (fun i => i.name)) →
      (∀ v ∈ T₂, ∀ i, findInf s v = some i → i ∈ c.interfaces) →
      ∃ news extraA extraR,
        applyOnModel c (diffAdds s ℓ T₂ n) =
          ⟨c.interfaces ++ news, c.addresses ++ extraA,
            c.routes ++ extraR⟩ ∧
        AddsOut s T₂ c news extraA extraR := by
  intro T₂
  induction T₂ with
  | nil =>
      intro n c hnames hfresh hpres
      refine ⟨[], [], [], ?_, ?_⟩
      · show c = _
        simp
      · refine ⟨?_, ?_, ?_, ?_, ?_, ?_, ?_, ?_, ?_⟩ <;> simp
  | cons v ts ih =>
      intro n c hnames hfresh hpres
      rcases hf : findInf s v with _ | i
      · -- unmatched tenant: a fresh interface, then its address and routes
        have hstep : diffAdds s ℓ (v :: ts) n =
            Diff.AddInterface ⟨vpsName n, 0, ℓ, v.vlan⟩ ::
              (newAddsTail v (vpsName n) ++ diffAdds s ℓ ts (n + 1)) := by
          simp only [diffAdds, hf, newAdds_cons, List.cons_append]
        have hni : ∀ b ∈ c.interfaces, b.name ≠ vpsName n := by
          intro b hb he
          exact hfresh n (Nat.le_refl n) (he ▸ List.mem_map_of_mem _ hb)
        have hres : resolveName
            (⟨c.interfaces ++ [⟨vpsName n, freshIndex c, ℓ, v.vlan⟩],
              c.addresses, c.routes⟩ : MState) (vpsName n) =
            some (freshIndex c) :=
          resolveName_appended hni
        rcases apply_group (newAddsTail v (vpsName n))
            (⟨c.interfaces ++ [⟨vpsName n, freshIndex c, ℓ, v.vlan⟩],
              c.addresses, c.routes⟩ : MState) (vpsName n) (freshIndex c)
            hres (newAddsTail_targets v (vpsName n)) with
          ⟨as₁, rs₁, happ₁, hA₁, hR₁⟩
        have happ₁' : applyOnModel
            (⟨c.interfaces ++ [⟨vpsName n, freshIndex c, ℓ, v.vlan⟩],
              c.addresses, c.routes⟩ : MState)
            (newAddsTail v (vpsName n)) =
            ⟨c.interfaces ++ [⟨vpsName n, freshIndex c, ℓ, v.vlan⟩],
              c.addresses ++ as₁, c.routes ++ rs₁⟩ := happ₁
        have hnames₂ : ((c.interfaces ++
            ([⟨vpsName n, freshIndex c, ℓ, v.vlan⟩] : List Interface)).map
              (fun i => i.name)).Nodup := by
          rw [List.map_append]
          refine List.Nodup.append hnames (by simp) ?_
          intro x hx hx2
          simp only [List.map_cons, List.map_nil, List.mem_singleton] at hx2
          subst hx2
          exact hfresh n (Nat.le_refl n) hx
        have hfresh₂ : ∀ m, n + 1 ≤ m →
            vpsName m ∉ (c.interfaces ++
              ([⟨vpsName n, freshIndex c, ℓ, v.vlan⟩] : List Interface)).map
                (fun i => i.name) := by
          intro m hm hmem
          rw [List.map_append] at hmem
          rcases List.mem_append.1 hmem with h | h
          · exact hfresh m (Nat.le_of_succ_le hm) h
          · simp only [List.map_cons, List.map_nil,
              List.mem_singleton] at h
            have := vpsName_inj h
            omega
        have hpres₂ : ∀ v' ∈ ts, ∀ j, findInf s v' = some j →
            j ∈ c.interfaces ++
              ([⟨vpsName n, freshIndex c, ℓ, v.vlan⟩] : List Interface) := by
          intro v' hv' j hj
          exact List.mem_append_left _
            (hpres v' (List.mem_cons_of_mem _ hv') j hj)
        rcases ih (n + 1)
            (⟨c.interfaces ++ [⟨vpsName n, freshIndex c, ℓ, v.vlan⟩],
              c.addresses ++ as₁, c.routes ++ rs₁⟩ : MState)
            hnames₂ hfresh₂ hpres₂ with
          ⟨news', as₂, rs₂, happ₂, hout⟩
        have happ₂' : applyOnModel
            (⟨c.interfaces ++ [⟨vpsName n, freshIndex c, ℓ, v.vlan⟩],
              c.addresses ++ as₁, c.routes ++ rs₁⟩ : MState)
            (diffAdds s ℓ ts (n + 1)) =
            ⟨(c.interfaces ++ [⟨vpsName n, freshIndex c, ℓ, v.vlan⟩]) ++
                news',
              (c.addresses ++ as₁) ++ as₂, (c.routes ++ rs₁) ++ rs₂⟩ :=
          happ₂
        refine ⟨⟨vpsName n, freshIndex c, ℓ, v.vlan⟩ :: news',
          as₁ ++ as₂, rs₁ ++ rs₂, ?_, ?_⟩
        · have e1 : applyOnModel c (diffAdds s ℓ (v :: ts) n) =
              applyOnModel
                (⟨c.interfaces ++ [⟨vpsName n, freshIndex c, ℓ, v.vlan⟩],
                  c.addresses, c.routes⟩ : MState)
                (newAddsTail v (vpsName n) ++ diffAdds s ℓ ts (n + 1)) := by
            rw [hstep]
            rfl
          rw [e1, applyOnModel_append, happ₁', happ₂',
            List.append_assoc c.interfaces, List.append_assoc c.addresses,
            List.append_assoc c.routes]
          rfl
        · refine ⟨?_, ?_, ?_, ?_, ?_, ?_, ?_, ?_, ?_⟩
          · -- vlans
            rw [List.map_cons, hout.vlans]
            have hfe : (v :: ts).filter (fun w => (findInf s w).isNone) =
                ts.filter (fun w => (findInf s w).isNone) →
                False := by
              intro hcon
              have : ((v :: ts).filter
                  (fun w => (findInf s w).isNone)).length =
                  (ts.filter (fun w => (findInf s w).isNone)).length :=
                congrArg List.length hcon
              rw [List.filter_cons, if_pos (by simp [hf])] at this
              simp at this
            rw [List.filter_cons, if_pos (by simp [hf]), List.map_cons]
          · -- index Nodup
            rw [List.map_cons, List.nodup_cons]
            refine ⟨?_, hout.idx_nodup⟩
            intro hmem
            rcases List.mem_map.1 hmem with ⟨j, hj, hjx⟩
            refine hout.idx_fresh j hj (mem_idxAll.2 (Or.inl ?_))
            exact ⟨⟨vpsName n, freshIndex c, ℓ, v.vlan⟩,
              List.mem_append_right _ (List.mem_singleton_self _),
              hjx.symm⟩
          · -- indices fresh for c
            intro j hj
            rcases List.mem_cons.1 hj with h | h
            · subst h
              intro hmem
              exact absurd (idxAll_lt_freshIndex c _ hmem)
                (Nat.lt_irrefl _)
            · intro hmem
              refine hout.idx_fresh j h ?_
              rcases mem_idxAll.1 hmem with ⟨i', hi', he⟩ | ⟨a, ha, he⟩ |
                ⟨r, hr, he⟩
              · exact mem_idxAll.2 (Or.inl
                  ⟨i', List.mem_append_left _ hi', he⟩)
              · exact mem_idxAll.2 (Or.inr (Or.inl
                  ⟨a, List.mem_append_left _ ha, he⟩))
              · exact mem_idxAll.2 (Or.inr (Or.inr
                  ⟨r, List.mem_append_left _ hr, he⟩))
          · -- matched tenants: the /31 address
            intro v' hv' j hj hb4
            rcases List.mem_cons.1 hv' with h | h
            · subst h
              rw [hf] at hj
              cases hj
            · rcases hout.m_addr v' h j hj hb4 with ⟨a, ha, hprops⟩
              exact ⟨a, List.mem_append_right _ ha, hprops⟩
          · -- matched tenants: public host routes
            intro v' hv' j hj p hp hpnot
            rcases List.mem_cons.1 hv' with h | h
            · subst h
              rw [hf] at hj
              cases hj
            · rcases hout.m_pub v' h j hj p hp hpnot with ⟨r, hr, hprops⟩
              exact ⟨r, List.mem_append_right _ hr, hprops⟩
          · -- matched tenants: the v6 route
            intro v' hv' j hj hb6
            rcases List.mem_cons.1 hv' with h | h
            · subst h
              rw [hf] at hj
              cases hj
            · rcases hout.m_v6 v' h j hj hb6 with ⟨r, hr, hprops⟩
              exact ⟨r, List.mem_append_right _ hr, hprops⟩
          · -- unmatched tenants are fully provisioned
            intro v' hv' hnone
            rcases List.mem_cons.1 hv' with h | h
            · subst h
              refine ⟨⟨vpsName n, freshIndex c, ℓ, v'.vlan⟩,
                List.mem_cons_self _ _, rfl, ?_, ?_, ?_⟩
              · have hops := (map_eq_map_mem hA₁).1
                rw [addAddrOps_newAddsTail] at hops
                rcases hops ⟨.v4 v'.v4_addr, 31, vpsName n⟩
                  (List.mem_singleton_self _) with ⟨a, ha, hfa⟩
                simp only [Prod.mk.injEq] at hfa
                exact ⟨a, List.mem_append_left _ ha, hfa.1, hfa.2.1,
                  hfa.2.2⟩
              · intro p hp
                have hops := (map_eq_map_mem hR₁).1
                rw [addRouteOps_newAddsTail] at hops
                rcases hops ⟨.v4 p, 32, vpsName n⟩
                  (List.mem_append_left _
                    (List.mem_map_of_mem _ hp)) with ⟨r, hr, hfr⟩
                simp only [Prod.mk.injEq] at hfr
                exact ⟨r, List.mem_append_left _ hr, hfr.1, hfr.2.1,
                  hfr.2.2⟩
              · have hops := (map_eq_map_mem hR₁).1
                rw [addRouteOps_newAddsTail] at hops
                rcases hops ⟨.v6 v'.v6_pfx, 64, vpsName n⟩
                  (List.mem_append_right _
                    (List.mem_singleton_self _)) with ⟨r, hr, hfr⟩
                simp only [Prod.mk.injEq] at hfr
                exact ⟨r, List.mem_append_left _ hr, hfr.1, hfr.2.1,
                  hfr.2.2⟩
            · rcases hout.u_all v' h hnone with
                ⟨i', hi', hvl', ⟨a, ha, hap⟩, hpub, ⟨r, hr, hrp⟩⟩
              refine ⟨i', List.mem_cons_of_mem _ hi', hvl',
                ⟨a, List.mem_append_right _ ha, hap⟩, ?_,
                ⟨r, List.mem_append_right _ hr, hrp⟩⟩
              intro p hp
              rcases hpub p hp with ⟨r₂, hr₂, hr₂p⟩
              exact ⟨r₂, List.mem_append_right _ hr₂, hr₂p⟩
          · -- every appended address is some tenant's /31 address
            intro a ha
            rcases List.mem_append.1 ha with h | h
            · rcases (map_eq_map_mem hA₁).2 a h with ⟨op, hop, hfa⟩
              rw [addAddrOps_newAddsTail] at hop
              rw [List.mem_singleton] at hop
              subst hop
              simp only [Prod.mk.injEq] at hfa
              exact ⟨hfa.2.2, v, List.mem_cons_self _ _, hfa.2.1,
                Or.inr ⟨hf, ⟨vpsName n, freshIndex c, ℓ, v.vlan⟩,
                  List.mem_cons_self _ _, rfl, hfa.1⟩⟩
            · rcases hout.sound_a a h with ⟨hpl, w, hw, haddr, hdisj⟩
              refine ⟨hpl, w, List.mem_cons_of_mem _ hw, haddr, ?_⟩
              rcases hdisj with ⟨j, hj, hint⟩ | ⟨hnone, i', hi', hvl', hint⟩
              · exact Or.inl ⟨j, hj, hint⟩
              · exact Or.inr ⟨hnone, i', List.mem_cons_of_mem _ hi',
                  hvl', hint⟩
          · -- every appended route fits some tenant
            intro r hr
            rcases List.mem_append.1 hr with h | h
            · rcases (map_eq_map_mem hR₁).2 r h with ⟨op, hop, hfr⟩
              rw [addRouteOps_newAddsTail] at hop
              rcases List.mem_append.1 hop with hop | hop
              · rcases List.mem_map.1 hop with ⟨p, hp, hpe⟩
                subst hpe
                simp only [Prod.mk.injEq] at hfr
                exact ⟨v, List.mem_cons_self _ _,
                  Or.inl ⟨p, hfr.2.1, hp, hfr.2.2⟩,
                  Or.inr ⟨hf, ⟨vpsName n, freshIndex c, ℓ, v.vlan⟩,
                    List.mem_cons_self _ _, rfl, hfr.1⟩⟩
              · rw [List.mem_singleton] at hop
                subst hop
                simp only [Prod.mk.injEq] at hfr
                exact ⟨v, List.mem_cons_self _ _,
                  Or.inr ⟨hfr.2.1, hfr.2.2⟩,
                  Or.inr ⟨hf, ⟨vpsName n, freshIndex c, ℓ, v.vlan⟩,
                    List.mem_cons_self _ _, rfl, hfr.1⟩⟩
            · rcases hout.sound_r r h with ⟨w, hw, hfits, hdisj⟩
              refine ⟨w, List.mem_cons_of_mem _ hw, hfits, ?_⟩
              rcases hdisj with ⟨j, hj, hint⟩ | ⟨hnone, i', hi', hvl', hint⟩
              · exact Or.inl ⟨j, hj, hint⟩
              · exact Or.inr ⟨hnone, i', List.mem_cons_of_mem _ hi',
                  hvl', hint⟩
      · -- matched tenant: the group targets the kept interface
        have hstep : diffAdds s ℓ (v :: ts) n =
            matchedAdds v i ((addrsOn s i.index).any (goodAddr v))
              ((routesOn s i.index).filterMap (destMatch v))
              ((routesOn s i.index).any (v6Match v))
            ++ diffAdds s ℓ ts n := by
          simp only [diffAdds, hf]
        have hiC : i ∈ c.interfaces := hpres v (List.mem_cons_self _ _) i hf
        have hres : resolveName c i.name = some i.index :=
          resolveName_of_mem hnames hiC
        rcases apply_group (matchedAdds v i
            ((addrsOn s i.index).any (goodAddr v))
            ((routesOn s i.index).filterMap (destMatch v))
            ((routesOn s i.index).any (v6Match v))) c i.name i.index
            hres (matchedAdds_targets v i _ _ _) with
          ⟨as₁, rs₁, happ₁, hA₁, hR₁⟩
        have hpres₂ : ∀ v' ∈ ts, ∀ j, findInf s v' = some j →
            j ∈ (⟨c.interfaces, c.addresses ++ as₁, c.routes ++ rs₁⟩ :
              MState).interfaces := by
          intro v' hv' j hj
          exact hpres v' (List.mem_cons_of_mem _ hv') j hj
        rcases ih n
            (⟨c.interfaces, c.addresses ++ as₁, c.routes ++ rs₁⟩ : MState)
            hnames hfresh hpres₂ with
          ⟨news', as₂, rs₂, happ₂, hout⟩
        have happ₂' : applyOnModel
            (⟨c.interfaces, c.addresses ++ as₁, c.routes ++ rs₁⟩ : MState)
            (diffAdds s ℓ ts n) =
            ⟨c.interfaces ++ news', (c.addresses ++ as₁) ++ as₂,
              (c.routes ++ rs₁) ++ rs₂⟩ := happ₂
        refine ⟨news', as₁ ++ as₂, rs₁ ++ rs₂, ?_, ?_⟩
        · rw [hstep, applyOnModel_append, happ₁, happ₂',
            List.append_assoc c.addresses, List.append_assoc c.routes]
        · refine ⟨?_, ?_, ?_, ?_, ?_, ?_, ?_, ?_, ?_⟩
          · -- vlans
            rw [hout.vlans, List.filter_cons, if_neg (by simp [hf])]
          · exact hout.idx_nodup
          · -- indices fresh for c
            intro j hj hmem
            refine hout.idx_fresh j hj ?_
            rcases mem_idxAll.1 hmem with ⟨i', hi', he⟩ | ⟨a, ha, he⟩ |
              ⟨r, hr, he⟩
            · exact mem_idxAll.2 (Or.inl ⟨i', hi', he⟩)
            · exact mem_idxAll.2 (Or.inr (Or.inl
                ⟨a, List.mem_append_left _ ha, he⟩))
            · exact mem_idxAll.2 (Or.inr (Or.inr
                ⟨r, List.mem_append_left _ hr, he⟩))
          · -- the /31 address for matched tenants
            intro v' hv' j hj hb4
            rcases List.mem_cons.1 hv' with h | h
            · subst h
              rw [hf] at hj
              injection hj with hj
              subst hj
              have hopmem : (⟨.v4 v'.v4_addr, 31, i.name⟩ :
                  AddAddressOp) ∈ addAddrOps (matchedAdds v' i
                    ((addrsOn s i.index).any (goodAddr v'))
                    ((routesOn s i.index).filterMap (destMatch v'))
                    ((routesOn s i.index).any (v6Match v')) :
                    List (Diff MAddr MRoute)) := by
                rw [addAddrOps_matchedAdds, hb4]
                simp
              rcases (map_eq_map_mem hA₁).1 _ hopmem with ⟨a, ha, hfa⟩
              simp only [Prod.mk.injEq] at hfa
              exact ⟨a, List.mem_append_left _ ha, hfa.1, hfa.2.1, hfa.2.2⟩
            · rcases hout.m_addr v' h j hj hb4 with ⟨a, ha, hprops⟩
              exact ⟨a, List.mem_append_right _ ha, hprops⟩
          · -- public host routes for matched tenants
            intro v' hv' j hj p hp hpnot
            rcases List.mem_cons.1 hv' with h | h
            · subst h
              rw [hf] at hj
              injection hj with hj
              subst hj
              have hopmem : (⟨.v4 p, 32, i.name⟩ : AddRouteOp) ∈
                  addRouteOps (matchedAdds v' i
                    ((addrsOn s i.index).any (goodAddr v'))
                    ((routesOn s i.index).filterMap (destMatch v'))
                    ((routesOn s i.index).any (v6Match v')) :
                    List (Diff MAddr MRoute)) := by
                rw [addRouteOps_matchedAdds]
                exact List.mem_append_left _ (List.mem_map_of_mem _
                  (List.mem_filter.2 ⟨hp, by simpa using hpnot⟩))
              rcases (map_eq_map_mem hR₁).1 _ hopmem with ⟨r, hr, hfr⟩
              simp only [Prod.mk.injEq] at hfr
              exact ⟨r, List.mem_append_left _ hr, hfr.1, hfr.2.1, hfr.2.2⟩
            · rcases hout.m_pub v' h j hj p hp hpnot with ⟨r, hr, hprops⟩
              exact ⟨r, List.mem_append_right _ hr, hprops⟩
          · -- the v6 route for matched tenants
            intro v' hv' j hj hb6
            rcases List.mem_cons.1 hv' with h | h
            · subst h
              rw [hf] at hj
              injection hj with hj
              subst hj
              have hopmem : (⟨.v6 v'.v6_pfx, 64, i.name⟩ : AddRouteOp) ∈
                  addRouteOps (matchedAdds v' i
                    ((addrsOn s i.index).any (goodAddr v'))
                    ((routesOn s i.index).filterMap (destMatch v'))
                    ((routesOn s i.index).any (v6Match v')) :
                    List (Diff MAddr MRoute)) := by
                rw [addRouteOps_matchedAdds, hb6]
                exact List.mem_append_right _ (by simp)
              rcases (map_eq_map_mem hR₁).1 _ hopmem with ⟨r, hr, hfr⟩
              simp only [Prod.mk.injEq] at hfr
              exact ⟨r, List.mem_append_left _ hr, hfr.1, hfr.2.1, hfr.2.2⟩
            · rcases hout.m_v6 v' h j hj hb6 with ⟨r, hr, hprops⟩
              exact ⟨r, List.mem_append_right _ hr, hprops⟩
          · -- unmatched tenants
            intro v' hv' hnone
            rcases List.mem_cons.1 hv' with h | h
            · subst h
              rw [hf] at hnone
              cases hnone
            · rcases hout.u_all v' h hnone with
                ⟨i', hi', hvl', ⟨a, ha, hap⟩, hpub, ⟨r, hr, hrp⟩⟩
              refine ⟨i', hi', hvl',
                ⟨a, List.mem_append_right _ ha, hap⟩, ?_,
                ⟨r, List.mem_append_right _ hr, hrp⟩⟩
              intro p hp
              rcases hpub p hp with ⟨r₂, hr₂, hr₂p⟩
              exact ⟨r₂, List.mem_append_right _ hr₂, hr₂p⟩
          · -- soundness of the appended addresses
            intro a ha
            rcases List.mem_append.1 ha with h | h
            · rcases (map_eq_map_mem hA₁).2 a h with ⟨op, hop, hfa⟩
              rw [addAddrOps_matchedAdds] at hop
              split at hop
              · cases hop
              · rw [List.mem_singleton] at hop
                subst hop
                simp only [Prod.mk.injEq] at hfa
                exact ⟨hfa.2.2, v, List.mem_cons_self _ _, hfa.2.1,
                  Or.inl ⟨i, hf, hfa.1⟩⟩
            · rcases hout.sound_a a h with ⟨hpl, w, hw, haddr, hdisj⟩
              exact ⟨hpl, w, List.mem_cons_of_mem _ hw, haddr, hdisj⟩
          · -- soundness of the appended routes
            intro r hr
            rcases List.mem_append.1 hr with h | h
            · rcases (map_eq_map_mem hR₁).2 r h with ⟨op, hop, hfr⟩
              rw [addRouteOps_matchedAdds] at hop
              rcases List.mem_append.1 hop with hop | hop
              · rcases List.mem_map.1 hop with ⟨p, hp, hpe⟩
                subst hpe
                simp only [Prod.mk.injEq] at hfr
                rcases List.mem_filter.1 hp with ⟨hpm, _⟩
                exact ⟨v, List.mem_cons_self _ _,
                  Or.inl ⟨p, hfr.2.1, hpm, hfr.2.2⟩,
                  Or.inl ⟨i, hf, hfr.1⟩⟩
              · split at hop
                · cases hop
                · rw [List.mem_singleton] at hop
                  subst hop
                  simp only [Prod.mk.injEq] at hfr
                  exact ⟨v, List.mem_cons_self _ _,
                    Or.inr ⟨hfr.2.1, hfr.2.2⟩,
                    Or.inl ⟨i, hf, hfr.1⟩⟩
            · rcases hout.sound_r r h with ⟨w, hw, hfits, hdisj⟩
              exact ⟨w, List.mem_cons_of_mem _ hw, hfits, hdisj⟩

/-! ## Small facts feeding the convergence argument -/

theorem flatMap_nil {α β : Type} {f : α → List β} {l : List α}
    (h : ∀ x ∈ l, f x = []) : l.flatMap f = [] := by
  induction l with
  | nil => rfl
  | cons x xs ih =>
      rw [List.flatMap_cons, h x (List.mem_cons_self _ _), List.nil_append]
      exact ih (fun y hy => h y (List.mem_cons_of_mem _ hy))

theorem not_mem_rem_of_keep {s : State A R} {T : List VPS} {idx : Nat}
    (h : idx ∈ keepIdxs s T) : idx ∉ remInterfaces s (keepIdxs s T) := by
  intro hrem
  rcases (mem_remInterfaces s _ _).1 hrem with ⟨i₂, _, _, hnk⟩
  exact hnk h

/-- A state already satisfying every tenant requirement produces no `Add*`
operations. -/
theorem diffAdds_nil (s' : State A R) (ℓ : Nat) :
    ∀ (T : List VPS) (n : Nat),
      (∀ v ∈ T, ∃ j, findInf s' v = some j ∧
        (addrsOn s' j.index).any (goodAddr v) = true ∧
        (publicsOf v).filter (fun p =>
          decide (p ∉ (routesOn s' j.index).filterMap (destMatch v))) = [] ∧
        (routesOn s' j.index).any (v6Match v) = true) →
      diffAdds s' ℓ T n = [] := by
  intro T
  induction T with
  | nil => intro n _; rfl
  | cons v ts ih =>
      intro n h
      rcases h v (List.mem_cons_self _ _) with ⟨j, hj, hb4, hpub, hb6⟩
      simp only [diffAdds, hj]
      rw [ih n (fun w hw => h w (List.mem_cons_of_mem _ hw)),
        List.append_nil]
      unfold matchedAdds
      rw [hb4, hb6]
      rcases hp : v.v4_public with _ | pv
      · simp
      · have hnil : pv.as_many.filter (fun p =>
            decide (p ∉ (routesOn s' j.index).filterMap (destMatch v))) =
            [] := by
          have h2 := hpub
          unfold publicsOf at h2
          rw [hp] at h2
          exact h2
        simp only [hp]
        rw [hnil]
        simp

/-- Applying the three removal phases of one diff to the model kernel. -/
theorem apply_removals (s : MState) (idxs : List Nat)
    (rrs : List (Route MRoute)) (ams : List MAddr) :
    applyOnModel s ((idxs.map (fun idx => Diff.RemoveInterface idx) ++
        rrs.map (fun r => Diff.RemoveRoute r.message)) ++
        ams.map (fun m => Diff.RemoveAddress m)) =
      ⟨s.interfaces.filter (fun i => decide (i.index ∉ idxs)),
       (s.addresses.filter (fun a => decide (a.interface ∉ idxs))).filter
         (fun a => decide (a.message ∉ ams)),
       (s.routes.filter (fun r => decide (r.interface ∉ idxs))).filter
         (fun r => decide (r.message ∉ rrs.map (fun r => r.message)))⟩ := by
  rw [applyOnModel_append, applyOnModel_append]
  rw [show idxs.map (fun idx => Diff.RemoveInterface (A := MAddr) idx) =
    idxs.map Diff.RemoveInterface from rfl]
  rw [apply_RI]
  rw [show rrs.map (fun r => Diff.RemoveRoute (A := MAddr) r.message) =
    (rrs.map (fun r => r.message)).map Diff.RemoveRoute by
      rw [List.map_map]
      rfl]
  rw [apply_RR]
  rw [show ams.map (fun m => Diff.RemoveAddress (R := MRoute) m) =
    ams.map Diff.RemoveAddress from rfl]
  rw [apply_RA]

/-- The interfaces surviving the removal phase are exactly the matched
interfaces of the tenant list. -/
theorem mem_survivors {s : State A R} {T : List VPS}
    (hidx : (s.interfaces.map (fun i => i.index)).Nodup) (i : Interface) :
    i ∈ s.interfaces.filter
        (fun i => decide (i.index ∉ remInterfaces s (keepIdxs s T))) ↔
      ∃ v ∈ T, findInf s v = some i := by
  rw [List.mem_filter]
  constructor
  · rintro ⟨hmem, hdec⟩
    simp only [decide_eq_true_eq] at hdec
    have hk : i.index ∈ keepIdxs s T := by
      by_contra hnk
      exact hdec ((mem_remInterfaces s _ _).2 ⟨i, hmem, rfl, hnk⟩)
    rcases (keepIdxs_spec s T i.index).1 hk with ⟨v, hv, iw, hfind, hidxe⟩
    have hwi : iw = i := mem_eq_of_map_nodup hidx
      (findInf_mem_vlan hfind).1 hmem hidxe
    exact ⟨v, hv, hwi ▸ hfind⟩
  · rintro ⟨v, hv, hfind⟩
    have hmem := (findInf_mem_vlan hfind).1
    refine ⟨hmem, ?_⟩
    simp only [decide_eq_true_eq]
    exact not_mem_rem_of_keep (mem_keepIdxs_intro s hfind T hv)

theorem badMsg_none_of_good {v : VPS} {a : Address A}
    (hd : a.address = IpAddr.v4 v.v4_addr) (hl : a.prefix_length = 31) :
    badMsg v a = none := by
  unfold badMsg
  rw [hd]
  simp [hl]

/-- No collected interface is named with a number at or above the
allocation base. -/
theorem vpsName_next_fresh {s : State A R}
    (hshort : ∀ i ∈ s.interfaces, i.name.length ≤ 15)
    {m : Nat} (hm : next_id_base s.interfaces ≤ m)
    (hmem : vpsName m ∈ s.interfaces.map (fun i => i.name)) : False := by
  rcases List.mem_map.1 hmem with ⟨i, hi, hname⟩
  have hsuf : name_suffix_num i.name = m :=
    suffix_of_eq_vpsName hname (hshort i hi)
  have hle : name_suffix_num i.name ≤
      (s.interfaces.map (fun i => name_suffix_num i.name)).foldl Nat.max 0 :=
    mem_le_foldl_max _ 0 _ (List.mem_map_of_mem _ hi)
  unfold next_id_base at hm
  omega

set_option maxHeartbeats 1600000 in
/-- The heart of convergence: if the post-tick state decomposes into the
surviving interfaces plus the fresh ones, the kept addresses/routes plus the
added ones, with the listed provenance facts, then the next tick queues
nothing. -/
theorem tick2_empty (ℓ : Nat) (T : List VPS) (s : MState)
    (hc : Collected s) (hvl : (T.map (fun v => v.vlan)).Nodup)
    (surv news : List Interface) (sA eA : List (Address MAddr))
    (sR eR : List (Route MRoute))
    (hsurv : ∀ i, i ∈ surv ↔ ∃ v ∈ T, findInf s v = some i)
    (hA_sub : ∀ a ∈ sA, a ∈ s.addresses)
    (hA_kept : ∀ a ∈ sA, a.message ∉ remAddrs s T)
    (hA_mem : ∀ a ∈ s.addresses,
      a.interface ∉ remInterfaces s (keepIdxs s T) →
      a.message ∉ remAddrs s T → a ∈ sA)
    (hR_sub : ∀ r ∈ sR, r ∈ s.routes)
    (hR_kept : ∀ r ∈ sR, r.message ∈ keepRts s T)
    (hR_mem : ∀ r ∈ s.routes,
      r.interface ∉ remInterfaces s (keepIdxs s T) →
      r.message ∈ keepRts s T → r ∈ sR)
    (hnews_spec : ∀ i' ∈ news, ∃ v ∈ T, findInf s v = none ∧
      v.vlan = i'.vlan)
    (hnews_vl : (news.map (fun i => i.vlan)).Nodup)
    (hnews_idx : (news.map (fun i => i.index)).Nodup)
    (hdisj : ∀ i ∈ surv, ∀ i' ∈ news, i.index ≠ i'.index)
    (hA_not_news : ∀ a ∈ sA, ∀ i' ∈ news, a.interface ≠ i'.index)
    (hm_addr : ∀ v ∈ T, ∀ i, findInf s v = some i →
      (addrsOn s i.index).any (goodAddr v) = false →
      ∃ a ∈ eA, a.interface = i.index ∧
        a.address = IpAddr.v4 v.v4_addr ∧ a.prefix_length = 31)
    (hm_pub : ∀ v ∈ T, ∀ i, findInf s v = some i → ∀ p ∈ publicsOf v,
      p ∉ (routesOn s i.index).filterMap (destMatch v) →
      ∃ r ∈ eR, r.interface = i.index ∧
        r.destination = IpAddr.v4 p ∧ r.destination_prefix_length = 32)
    (hm_v6 : ∀ v ∈ T, ∀ i, findInf s v = some i →
      (routesOn s i.index).any (v6Match v) = false →
      ∃ r ∈ eR, r.interface = i.index ∧
        r.destination = IpAddr.v6 v.v6_pfx ∧
        r.destination_prefix_length = 64)
    (hu_all : ∀ v ∈ T, findInf s v = none →
      ∃ i' ∈ news, i'.vlan = v.vlan ∧
        (∃ a ∈ eA, a.interface = i'.index ∧
          a.address = IpAddr.v4 v.v4_addr ∧ a.prefix_length = 31) ∧
        (∀ p ∈ publicsOf v, ∃ r ∈ eR, r.interface = i'.index ∧
          r.destination = IpAddr.v4 p ∧
          r.destination_prefix_length = 32) ∧
        (∃ r ∈ eR, r.interface = i'.index ∧
          r.destination = IpAddr.v6 v.v6_pfx ∧
          r.destination_prefix_length = 64))
    (hsound_a : ∀ a ∈ eA, a.prefix_length = 31 ∧ ∃ v ∈ T,
      a.address = IpAddr.v4 v.v4_addr ∧
      ((∃ i, findInf s v = some i ∧ a.interface = i.index) ∨
       (findInf s v = none ∧ ∃ i' ∈ news, i'.vlan = v.vlan ∧
         a.interface = i'.index)))
    (hsound_r : ∀ r ∈ eR, ∃ v ∈ T, RouteFits v r ∧
      ((∃ i, findInf s v = some i ∧ r.interface = i.index) ∨
       (findInf s v = none ∧ ∃ i' ∈ news, i'.vlan = v.vlan ∧
         r.interface = i'.index))) :
    (make_diff_core ℓ T
      (⟨surv ++ news, sA ++ eA, sR ++ eR⟩ : MState)).1 = [] := by
  set F : MState := ⟨surv ++ news, sA ++ eA, sR ++ eR⟩ with hF
  have hFi : F.interfaces = surv ++ news := rfl
  have hFa : F.addresses = sA ++ eA := rfl
  have hFr : F.routes = sR ++ eR := rfl
  have haddrs : ∀ idx, addrsOn F idx = (sA ++ eA).filter
      (fun a => decide (a.interface = idx)) := by
    intro idx
    unfold addrsOn
    rw [hFa]
  have hroutes : ∀ idx, routesOn F idx = (sR ++ eR).filter
      (fun r => decide (r.interface = idx)) := by
    intro idx
    unfold routesOn
    rw [hFr]
  -- tick-2 interface resolution: matched tenants resolve to the kept
  -- interface, unmatched ones to the fresh interface of their VLAN
  have hsome₂ : ∀ v ∈ T, ∀ j, findInf s v = some j →
      findInf F v = some j := by
    intro v hv j hj
    have hjs : j ∈ surv := (hsurv j).2 ⟨v, hv, hj⟩
    unfold findInf
    rw [hFi, List.find?_append]
    have hfind1 : surv.find? (fun i => decide (i.vlan = v.vlan)) =
        some j := by
      refine find?_eq_some_of_unique hjs (by simp [(findInf_mem_vlan hj).2])
        ?_
      intro b hb hpb
      simp only [decide_eq_true_eq] at hpb
      rcases (hsurv b).1 hb with ⟨w, hw, hjw⟩
      have hbw : b.vlan = w.vlan := (findInf_mem_vlan hjw).2
      have hwv : w = v := mem_eq_of_map_nodup hvl hw hv (by rw [← hbw, hpb])
      subst hwv
      rw [hj] at hjw
      injection hjw with hjw
      exact hjw.symm
    rw [hfind1]
    simp
  have hnone₂ : ∀ v ∈ T, findInf s v = none → ∀ i' ∈ news,
      i'.vlan = v.vlan → findInf F v = some i' := by
    intro v hv hn i' hi' hvi
    unfold findInf
    rw [hFi, List.find?_append]
    have hfind1 : surv.find? (fun i => decide (i.vlan = v.vlan)) =
        none := by
      rw [List.find?_eq_none]
      intro b hb hpb
      simp only [decide_eq_true_eq] at hpb
      rcases (hsurv b).1 hb with ⟨w, hw, hjw⟩
      have hbw : b.vlan = w.vlan := (findInf_mem_vlan hjw).2
      have hwv : w = v := mem_eq_of_map_nodup hvl hw hv (by rw [← hbw, hpb])
      subst hwv
      rw [hn] at hjw
      cases hjw
    have hfind2 : news.find? (fun i => decide (i.vlan = v.vlan)) =
        some i' := by
      refine find?_eq_some_of_unique hi' (by simp [hvi]) ?_
      intro b hb hpb
      simp only [decide_eq_true_eq] at hpb
      exact mem_eq_of_map_nodup hnews_vl hb hi' (by rw [hpb, hvi])
    rw [hfind1]
    simp [hfind2]
  -- phase 1 of the next tick: nothing to remove
  have hRI : remInterfaces F (keepIdxs F T) = [] := by
    have hfil : F.interfaces.filter
        (fun i => decide (i.index ∉ keepIdxs F T)) = [] := by
      rw [List.filter_eq_nil_iff]
      intro i hi hdec
      simp only [decide_eq_true_eq] at hdec
      apply hdec
      rw [hFi] at hi
      rcases List.mem_append.1 hi with h | h
      · rcases (hsurv i).1 h with ⟨w, hw, hj⟩
        exact mem_keepIdxs_intro F (hsome₂ w hw i hj) T hw
      · rcases hnews_spec i h with ⟨w, hw, hn, hvv⟩
        exact mem_keepIdxs_intro F (hnone₂ w hw hn i h hvv.symm) T hw
    unfold remInterfaces
    rw [hfil]
    rfl
  -- every route of the new state is a kept route of the next tick
  have hkeep₂ : ∀ r ∈ sR ++ eR, r.message ∈ keepRts F T := by
    intro r hr
    rcases List.mem_append.1 hr with h | h
    · have hrs : r ∈ s.routes := hR_sub r h
      rcases (keepRts_spec s T r.message).1 (hR_kept r h) with
        ⟨w, hw, iw, hjw, r₂, hr₂, hint₂, hk₂⟩
      rcases keptMsg_some hk₂ with ⟨hmsg, hfits₂⟩
      rcases hc.route_mirror r hrs with ⟨hmi, hmd, hml⟩
      rcases hc.route_mirror r₂ hr₂ with ⟨hmi₂, hmd₂, hml₂⟩
      have hint : r.interface = iw.index := by
        rw [← hmi, hmsg, hmi₂, hint₂]
      have hdeq : r.destination = r₂.destination := by
        rw [← hmd, hmsg, hmd₂]
      have hleq : r.destination_prefix_length =
          r₂.destination_prefix_length := by
        rw [← hml, hmsg, hml₂]
      have hfits : RouteFits w r := by
        rcases hfits₂ with ⟨d, hd, hdp, hdl⟩ | ⟨hd, hdl⟩
        · exact Or.inl ⟨d, by rw [hdeq, hd], hdp, by rw [hleq, hdl]⟩
        · exact Or.inr ⟨by rw [hdeq, hd], by rw [hleq, hdl]⟩
      refine (keepRts_spec F T r.message).2
        ⟨w, hw, iw, hsome₂ w hw iw hjw, r, ?_, hint,
          keptMsg_of_fits hfits⟩
      rw [hFr]
      exact List.mem_append_left _ h
    · rcases hsound_r r h with ⟨w, hw, hfits, hcase⟩
      rcases hcase with ⟨iw, hjw, hint⟩ | ⟨hn, i', hi', hvi, hint⟩
      · refine (keepRts_spec F T r.message).2
          ⟨w, hw, iw, hsome₂ w hw iw hjw, r, ?_, hint,
            keptMsg_of_fits hfits⟩
        rw [hFr]
        exact List.mem_append_right _ h
      · refine (keepRts_spec F T r.message).2
          ⟨w, hw, i', hnone₂ w hw hn i' hi' hvi, r, ?_, hint,
            keptMsg_of_fits hfits⟩
        rw [hFr]
        exact List.mem_append_right _ h
  -- phase 2: no route removals
  have hRR : F.routes.filter (fun r => decide (r.message ∉ keepRts F T ∧
      r.interface ∉ remInterfaces F (keepIdxs F T))) = [] := by
    rw [List.filter_eq_nil_iff]
    intro r hr hdec
    simp only [decide_eq_true_eq] at hdec
    rw [hFr] at hr
    exact hdec.1 (hkeep₂ r hr)
  -- phase 3: no address removals
  have hRA : remAddrs F T = [] := by
    unfold remAddrs
    apply flatMap_nil
    intro v hv
    rcases hfs : findInf s v with _ | j
    · rcases hu_all v hv hfs with ⟨i', hi', hvi, _, _, _⟩
      rw [hnone₂ v hv hfs i' hi' hvi]
      rw [List.filterMap_eq_nil_iff]
      intro a ha
      rcases List.mem_filter.1 (haddrs i'.index ▸ ha) with ⟨haF, hai⟩
      simp only [decide_eq_true_eq] at hai
      rcases List.mem_append.1 haF with h | h
      · exact absurd hai (hA_not_news a h i' hi')
      · rcases hsound_a a h with ⟨hpl, w, hw, haddr, hcase⟩
        rcases hcase with ⟨iw, hjw, hint⟩ | ⟨hn, iw', hiw', hvw, hint⟩
        · have hiws : iw ∈ surv := (hsurv iw).2 ⟨w, hw, hjw⟩
          exact absurd (show iw.index = i'.index by rw [← hint, hai])
            (hdisj iw hiws i' hi')
        · have hiw : iw' = i' := mem_eq_of_map_nodup hnews_idx hiw' hi'
            (by rw [← hint, hai])
          have hwv : w = v := by
            refine mem_eq_of_map_nodup hvl hw hv ?_
            rw [← hvw, hiw, hvi]
          subst hwv
          exact badMsg_none_of_good haddr hpl
    · rw [hsome₂ v hv j hfs]
      rw [List.filterMap_eq_nil_iff]
      intro a ha
      rcases List.mem_filter.1 (haddrs j.index ▸ ha) with ⟨haF, hai⟩
      simp only [decide_eq_true_eq] at hai
      rcases List.mem_append.1 haF with h | h
      · rcases hbad : badMsg v a with _ | m
        · rfl
        · exfalso
          have hm := badMsg_some v a hbad
          subst hm
          exact hA_kept a h ((remAddrs_spec s T a.message).2
            ⟨v, hv, j, hfs, a, hA_sub a h, hai, hbad⟩)
      · rcases hsound_a a h with ⟨hpl, w, hw, haddr, hcase⟩
        rcases hcase with ⟨iw, hjw, hint⟩ | ⟨hn, iw', hiw', hvw, hint⟩
        · have hiwj : iw = j := mem_eq_of_map_nodup hc.idx_nodup
            (findInf_mem_vlan hjw).1 (findInf_mem_vlan hfs).1
            (by rw [← hint, hai])
          have hwv : w = v := by
            refine mem_eq_of_map_nodup hvl hw hv ?_
            rw [← (findInf_mem_vlan hjw).2, hiwj, (findInf_mem_vlan hfs).2]
          subst hwv
          exact badMsg_none_of_good haddr hpl
        · have hjs : j ∈ surv := (hsurv j).2 ⟨v, hv, hfs⟩
          exact absurd (show j.index = iw'.index by rw [← hai, hint])
            (hdisj j hjs iw' hiw')
  -- phase 4: every tenant requirement is already satisfied
  have hprov : ∀ v ∈ T, ∃ j, findInf F v = some j ∧
      (addrsOn F j.index).any (goodAddr v) = true ∧
      (publicsOf v).filter (fun p =>
        decide (p ∉ (routesOn F j.index).filterMap (destMatch v))) = [] ∧
      (routesOn F j.index).any (v6Match v) = true := by
    intro v hv
    rcases hfs : findInf s v with _ | j
    · rcases hu_all v hv hfs with ⟨i', hi', hvi, ⟨a, haA, hintA, haddrA,
        hplA⟩, hpubs, ⟨r6, hr6, hint6, hdest6, hdpl6⟩⟩
      refine ⟨i', hnone₂ v hv hfs i' hi' hvi, ?_, ?_, ?_⟩
      · rw [List.any_eq_true]
        refine ⟨a, ?_, (goodAddr_iff v a).2 ⟨haddrA, hplA⟩⟩
        rw [haddrs]
        exact List.mem_filter.2 ⟨List.mem_append_right _ haA,
          by simp [hintA]⟩
      · rw [List.filter_eq_nil_iff]
        intro p hp hdec
        simp only [decide_eq_true_eq] at hdec
        apply hdec
        rcases hpubs p hp with ⟨r, hreR, hintr, hdestr, hdplr⟩
        refine List.mem_filterMap.2 ⟨r, ?_, destMatch_of hdestr hp hdplr⟩
        rw [hroutes]
        exact List.mem_filter.2 ⟨List.mem_append_right _ hreR,
          by simp [hintr]⟩
      · rw [List.any_eq_true]
        refine ⟨r6, ?_, v6Match_of hdest6 hdpl6⟩
        rw [hroutes]
        exact List.mem_filter.2 ⟨List.mem_append_right _ hr6,
          by simp [hint6]⟩
    · refine ⟨j, hsome₂ v hv j hfs, ?_, ?_, ?_⟩
      · by_cases hb4 : (addrsOn s j.index).any (goodAddr v) = true
        · rw [List.any_eq_true] at hb4
          rcases hb4 with ⟨a, haon, hga⟩
          rcases List.mem_filter.1 haon with ⟨has, hai⟩
          simp only [decide_eq_true_eq] at hai
          rcases (goodAddr_iff v a).1 hga with ⟨hgd, hgl⟩
          have hkeep : a.interface ∉ remInterfaces s (keepIdxs s T) := by
            rw [hai]
            exact not_mem_rem_of_keep (mem_keepIdxs_intro s hfs T hv)
          have hnrem : a.message ∉ remAddrs s T := by
            intro hmem
            rcases (remAddrs_spec s T a.message).1 hmem with
              ⟨w, hw, iw, hjw, b, hb, hbint, hbbad⟩
            rcases badMsg_some_fields hbbad with ⟨hbm, d, hbd, hbneg⟩
            rcases hc.addr_mirror a has with ⟨hma, hmaa, hmal⟩
            rcases hc.addr_mirror b hb with ⟨hmb, hmba, hmbl⟩
            have hbia : b.interface = a.interface := by
              rw [← hmb, ← hbm, hma]
            have hbaa : b.address = a.address := by
              rw [← hmba, ← hbm, hmaa]
            have hbla : b.prefix_length = a.prefix_length := by
              rw [← hmbl, ← hbm, hmal]
            have hiwj : iw = j := mem_eq_of_map_nodup hc.idx_nodup
              (findInf_mem_vlan hjw).1 (findInf_mem_vlan hfs).1
              (by rw [← hbint, hbia, hai])
            have hwv : w = v := by
              refine mem_eq_of_map_nodup hvl hw hv ?_
              rw [← (findInf_mem_vlan hjw).2, hiwj,
                (findInf_mem_vlan hfs).2]
            refine hbneg ⟨?_, by rw [hbla, hgl]⟩
            rw [hwv]
            have hba : b.address = IpAddr.v4 v.v4_addr := by
              rw [hbaa, hgd]
            rw [hbd] at hba
            injection hba with hba
            exact hba.symm
          rw [List.any_eq_true]
          refine ⟨a, ?_, hga⟩
          rw [haddrs]
          exact List.mem_filter.2
            ⟨List.mem_append_left _ (hA_mem a has hkeep hnrem),
              by simp [hai]⟩
        · have hb4' : (addrsOn s j.index).any (goodAddr v) = false := by
            rcases hx : (addrsOn s j.index).any (goodAddr v) with _ | _
            · rfl
            · exact absurd hx hb4
          rcases hm_addr v hv j hfs hb4' with ⟨a, haeA, hintA, haddrA,
            hplA⟩
          rw [List.any_eq_true]
          refine ⟨a, ?_, (goodAddr_iff v a).2 ⟨haddrA, hplA⟩⟩
          rw [haddrs]
          exact List.mem_filter.2 ⟨List.mem_append_right _ haeA,
            by simp [hintA]⟩
      · rw [List.filter_eq_nil_iff]
        intro p hp hdec
        simp only [decide_eq_true_eq] at hdec
        apply hdec
        by_cases hpF : p ∈ (routesOn s j.index).filterMap (destMatch v)
        · rcases List.mem_filterMap.1 hpF with ⟨r, hron, hdm⟩
          rcases List.mem_filter.1 hron with ⟨hrs, hri⟩
          simp only [decide_eq_true_eq] at hri
          rcases destMatch_some hdm with ⟨hdest, hpp, hdpl⟩
          have hkeeprt : r.message ∈ keepRts s T :=
            (keepRts_spec s T r.message).2 ⟨v, hv, j, hfs, r, hrs, hri,
              keptMsg_of_fits (Or.inl ⟨p, hdest, hpp, hdpl⟩)⟩
          have hremr : r.interface ∉ remInterfaces s (keepIdxs s T) := by
            rw [hri]
            exact not_mem_rem_of_keep (mem_keepIdxs_intro s hfs T hv)
          refine List.mem_filterMap.2 ⟨r, ?_, hdm⟩
          rw [hroutes]
          exact List.mem_filter.2
            ⟨List.mem_append_left _ (hR_mem r hrs hremr hkeeprt),
              by simp [hri]⟩
        · rcases hm_pub v hv j hfs p hp hpF with ⟨r, hreR, hintr, hdestr,
            hdplr⟩
          refine List.mem_filterMap.2 ⟨r, ?_, destMatch_of hdestr hp hdplr⟩
          rw [hroutes]
          exact List.mem_filter.2 ⟨List.mem_append_right _ hreR,
            by simp [hintr]⟩
      · by_cases hb6 : (routesOn s j.index).any (v6Match v) = true
        · rw [List.any_eq_true] at hb6
          rcases hb6 with ⟨r, hron, hv6⟩
          rcases List.mem_filter.1 hron with ⟨hrs, hri⟩
          simp only [decide_eq_true_eq] at hri
          rcases v6Match_true hv6 with ⟨hdest, hdpl⟩
          have hkeeprt : r.message ∈ keepRts s T :=
            (keepRts_spec s T r.message).2 ⟨v, hv, j, hfs, r, hrs, hri,
              keptMsg_of_fits (Or.inr ⟨hdest, hdpl⟩)⟩
          have hremr : r.interface ∉ remInterfaces s (keepIdxs s T) := by
            rw [hri]
            exact not_mem_rem_of_keep (mem_keepIdxs_intro s hfs T hv)
          rw [List.any_eq_true]
          refine ⟨r, ?_, hv6⟩
          rw [hroutes]
          exact List.mem_filter.2
            ⟨List.mem_append_left _ (hR_mem r hrs hremr hkeeprt),
              by simp [hri]⟩
        · have hb6' : (routesOn s j.index).any (v6Match v) = false := by
            rcases hx : (routesOn s j.index).any (v6Match v) with _ | _
            · rfl
            · exact absurd hx hb6
          rcases hm_v6 v hv j hfs hb6' with ⟨r, hreR, hintr, hdestr,
            hdplr⟩
          rw [List.any_eq_true]
          refine ⟨r, ?_, v6Match_of hdestr hdplr⟩
          rw [hroutes]
          exact List.mem_filter.2 ⟨List.mem_append_right _ hreR,
            by simp [hintr]⟩
  have hDA : diffAdds F ℓ T (next_id_base F.interfaces) = [] :=
    diffAdds_nil F ℓ T _ hprov
  rw [make_diff_core_eq, hRR, hRI, hRA, hDA]
  rfl

set_option maxHeartbeats 1600000 in
/-- One reconciliation tick applied to the model kernel leaves a state on
which the next tick computes an empty diff (collected snapshot, pairwise
distinct tenant VLANs). -/
theorem converge_core (ℓ : Nat) (T : List VPS) (s : MState)
    (hc : Collected s) (hvl : (T.map (fun v => v.vlan)).Nodup) :
    (make_diff_core ℓ T
      (applyOnModel s (make_diff_core ℓ T s).1)).1 = [] := by
  have hops : (make_diff_core ℓ T s).1 =
      ((remInterfaces s (keepIdxs s T)).map
          (fun idx => Diff.RemoveInterface idx)
        ++ (s.routes.filter (fun r => decide (r.message ∉ keepRts s T ∧
              r.interface ∉ remInterfaces s (keepIdxs s T)))).map
            (fun r => Diff.RemoveRoute r.message)
        ++ (remAddrs s T).map (fun m => Diff.RemoveAddress m)
        ++ diffAdds s ℓ T (next_id_base s.interfaces)) := by
    rw [make_diff_core_eq]
  rw [hops, applyOnModel_append, apply_removals]
  set surv := s.interfaces.filter (fun i => decide (i.index ∉
    remInterfaces s (keepIdxs s T))) with hsurvdef
  set sA := (s.addresses.filter (fun a => decide (a.interface ∉
    remInterfaces s (keepIdxs s T)))).filter
    (fun a => decide (a.message ∉ remAddrs s T)) with hsAdef
  set sR := (s.routes.filter (fun r => decide (r.interface ∉
    remInterfaces s (keepIdxs s T)))).filter
    (fun r => decide (r.message ∉ (s.routes.filter (fun r =>
      decide (r.message ∉ keepRts s T ∧ r.interface ∉
        remInterfaces s (keepIdxs s T)))).map (fun r => r.message)))
    with hsRdef
  have hnames₀ : (surv.map (fun i => i.name)).Nodup := by
    rw [hsurvdef]
    exact List.Nodup.sublist
      ((List.filter_sublist s.interfaces).map (fun i => i.name))
      hc.names_nodup
  have hfresh₀ : ∀ m, next_id_base s.interfaces ≤ m →
      vpsName m ∉ surv.map (fun i => i.name) := by
    intro m hm hmem
    rw [hsurvdef] at hmem
    rcases List.mem_map.1 hmem with ⟨i, hi, he⟩
    exact vpsName_next_fresh hc.names_short hm
      (List.mem_map.2 ⟨i, (List.mem_filter.1 hi).1, he⟩)
  have hsurv : ∀ i, i ∈ surv ↔ ∃ v ∈ T, findInf s v = some i := by
    intro i
    rw [hsurvdef]
    exact mem_survivors hc.idx_nodup i
  have hpres₀ : ∀ v ∈ T, ∀ i, findInf s v = some i → i ∈ surv := by
    intro v hv i hfi
    exact (hsurv i).2 ⟨v, hv, hfi⟩
  rcases apply_diffAdds s ℓ T (next_id_base s.interfaces)
      (⟨surv, sA, sR⟩ : MState) hnames₀ hfresh₀ hpres₀ with
    ⟨news, eA, eR, happ, hout⟩
  have happ' : applyOnModel (⟨surv, sA, sR⟩ : MState)
      (diffAdds s ℓ T (next_id_base s.interfaces)) =
      ⟨surv ++ news, sA ++ eA, sR ++ eR⟩ := happ
  rw [happ']
  have hA_sub : ∀ a ∈ sA, a ∈ s.addresses := by
    intro a ha
    rw [hsAdef] at ha
    exact (List.mem_filter.1 (List.mem_filter.1 ha).1).1
  have hA_kept : ∀ a ∈ sA, a.message ∉ remAddrs s T := by
    intro a ha
    rw [hsAdef] at ha
    have h2 := (List.mem_filter.1 ha).2
    simpa using h2
  have hA_mem : ∀ a ∈ s.addresses,
      a.interface ∉ remInterfaces s (keepIdxs s T) →
      a.message ∉ remAddrs s T → a ∈ sA := by
    intro a ha h1 h2
    rw [hsAdef]
    exact List.mem_filter.2 ⟨List.mem_filter.2 ⟨ha, by simpa using h1⟩,
      by simpa using h2⟩
  have hR_sub : ∀ r ∈ sR, r ∈ s.routes := by
    intro r hr
    rw [hsRdef] at hr
    exact (List.mem_filter.1 (List.mem_filter.1 hr).1).1
  have hR_kept : ∀ r ∈ sR, r.message ∈ keepRts s T := by
    intro r hr
    rw [hsRdef] at hr
    rcases List.mem_filter.1 hr with ⟨hr1, hr2⟩
    rcases List.mem_filter.1 hr1 with ⟨hrs, hri⟩
    simp only [decide_eq_true_eq] at hri hr2
    by_contra hnk
    exact hr2 (List.mem_map.2 ⟨r, List.mem_filter.2 ⟨hrs,
      by simp [hnk, hri]⟩, rfl⟩)
  have hR_mem : ∀ r ∈ s.routes,
      r.interface ∉ remInterfaces s (keepIdxs s T) →
      r.message ∈ keepRts s T → r ∈ sR := by
    intro r hrs h1 h2
    rw [hsRdef]
    refine List.mem_filter.2 ⟨List.mem_filter.2 ⟨hrs, by simpa using h1⟩,
      ?_⟩
    simp only [decide_eq_true_eq]
    intro hmem
    rcases List.mem_map.1 hmem with ⟨r₃, hr₃, hmeq⟩
    rcases List.mem_filter.1 hr₃ with ⟨_, hcond⟩
    simp only [decide_eq_true_eq] at hcond
    exact hcond.1 (hmeq ▸ h2)
  have hnews_spec : ∀ i' ∈ news, ∃ v ∈ T, findInf s v = none ∧
      v.vlan = i'.vlan := by
    intro i' hi'
    rcases (map_eq_map_mem hout.vlans).2 i' hi' with ⟨v, hvf, he⟩
    rcases List.mem_filter.1 hvf with ⟨hvT, hnone⟩
    exact ⟨v, hvT, Option.isNone_iff_eq_none.1 hnone, he.symm⟩
  have hnews_vl : (news.map (fun i => i.vlan)).Nodup := by
    rw [hout.vlans]
    exact List.Nodup.sublist
      ((List.filter_sublist T).map (fun v => v.vlan)) hvl
  have hdisj : ∀ i ∈ surv, ∀ i' ∈ news, i.index ≠ i'.index := by
    intro i hi i' hi' he
    exact hout.idx_fresh i' hi' (mem_idxAll.2 (Or.inl ⟨i, hi, he⟩))
  have hA_not_news : ∀ a ∈ sA, ∀ i' ∈ news, a.interface ≠ i'.index := by
    intro a ha i' hi' he
    exact hout.idx_fresh i' hi'
      (mem_idxAll.2 (Or.inr (Or.inl ⟨a, ha, he⟩)))
  exact tick2_empty ℓ T s hc hvl surv news sA eA sR eR hsurv hA_sub
    hA_kept hA_mem hR_sub hR_kept hR_mem hnews_spec hnews_vl
    hout.idx_nodup hdisj hA_not_news hout.m_addr hout.m_pub hout.m_v6
    hout.u_all hout.sound_a hout.sound_r

/-- **C1** (counterexample to the unrestricted claim).  The collected state
is empty and the tenant list holds two specs with the same VLAN id 5.  Tick
1 creates an interface for each (`vps1`, `vps2`, both vlan 5); in tick 2
both specs match `vps1`, so `vps2` is queued for removal and the second diff
is not empty. -/
theorem counter_C1 :
    Collected (⟨[], [], []⟩ : MState) ∧
    Except.map (fun p =>
        Except.map (fun q => (q.1 : List (Diff MAddr MRoute)).isEmpty)
          (make_diff [("eth0", 1)] "eth0"
            [⟨5, 1, none, 7⟩, ⟨5, 1, none, 7⟩]
            (applyOnModel (⟨[], [], []⟩ : MState) p.1)))
      (make_diff [("eth0", 1)] "eth0" [⟨5, 1, none, 7⟩, ⟨5, 1, none, 7⟩]
        (⟨[], [], []⟩ : MState)) = .ok (.ok false) := by
  constructor
  · constructor <;> simp
  · rfl

/-- **C1** (amended).  Convergence holds for collected snapshots when the
tenant VLAN ids are pairwise distinct: if `make_diff` succeeds with
operation list `ops`, then `make_diff` on the model-level application of
`ops` to the snapshot, with the same parent link and tenants, succeeds with
the empty operation list. -/
theorem claim_C1 (links : List (String × Nat)) (root : String)
    (T : List VPS) (s : MState) (hc : Collected s)
    (hvl : (T.map (fun v => v.vlan)).Nodup)
    (ops : List (Diff MAddr MRoute)) (ist : List InterfaceState)
    (hok : make_diff links root T s = .ok (ops, ist)) :
    ∃ ist₂, make_diff links root T (applyOnModel s ops) =
      .ok ([], ist₂) := by
  unfold make_diff at hok
  rcases hres : interface_name_to_index links root with e | ℓ
  · rw [hres] at hok
    injection hok
  · rw [hres] at hok
    injection hok with hok
    have h1 : ops = (make_diff_core ℓ T s).1 := by rw [hok]
    have hgoal : make_diff links root T (applyOnModel s ops) =
        .ok (make_diff_core ℓ T (applyOnModel s ops)) := by
      unfold make_diff
      rw [hres]
    refine ⟨(make_diff_core ℓ T (applyOnModel s ops)).2, ?_⟩
    rw [hgoal]
    congr 1
    refine Prod.ext ?_ rfl
    rw [h1]
    exact converge_core ℓ T s hc hvl

/-- Witness for C1: one tenant on the empty snapshot; the emitted
operations create `vps1` with its address and v6 route, and the second tick
is empty. -/
theorem claim_C1_witness :
    ∃ ist₂, make_diff [("eth0", 1)] "eth0" [⟨5, 1, none, 7⟩]
      (applyOnModel (⟨[], [], []⟩ : MState)
        [Diff.AddInterface ⟨"vps1", 0, 1, 5⟩,
         Diff.AddAddress ⟨.v4 1, 31, "vps1"⟩,
         Diff.AddRoute ⟨.v6 7, 64, "vps1"⟩]) = .ok ([], ist₂) :=
  claim_C1 [("eth0", 1)] "eth0" [⟨5, 1, none, 7⟩] ⟨[], [], []⟩
    (by constructor <;> simp) (by simp)
    [Diff.AddInterface ⟨"vps1", 0, 1, 5⟩,
     Diff.AddAddress ⟨.v4 1, 31, "vps1"⟩,
     Diff.AddRoute ⟨.v6 7, 64, "vps1"⟩]
    [⟨"vps1", ⟨5, 1, none, 7⟩⟩] (by rfl)

end Vps
